import Mathlib

/-!
# nuff: the slide pipeline of `nuff.c`

A shallow embedding of the deck parser (`load`), the image size computation
(`pngprepare`, `pngscale`), the text fitter (`getfontsize`), the redraw
(`xdraw`) and the navigation handlers (`advance`, `configure`) of `nuff.c`,
with the properties of the written specification stated and settled against
them.

Conventions of the embedding.

* A C string is the list of its bytes before the terminating NUL.
* A `FILE *` opened for reading is the list of bytes not yet read.
* `unsigned int` arithmetic is arithmetic on `Nat` reduced modulo `2 ^ 32`.
* `malloc`, `realloc`, `strdup` never fail (memory is unbounded).
* `die` ends the run: functions that can call it return `Except String _`.
-/

namespace Nuff

/-! ## Data model (`nuff.c`, lines 30-53) -/

/-- The `imgstate` flag `NONE`. -/
def NONE : Nat := 0
/-- The `imgstate` flag `LOADED`. -/
def LOADED : Nat := 1
/-- The `imgstate` flag `SCALED`. -/
def SCALED : Nat := 2
/-- The `imgstate` flag `DRAWN`. -/
def DRAWN : Nat := 4

/-- The struct `Image`. `ximg` holds the width and height of the `XImage`
once one was created. The decode handle (`f`, `png_ptr`, `info_ptr`) is
external: `decodes` records whether libpng can decode the file behind it. -/
structure Image where
  bufwidth : Nat
  bufheight : Nat
  state : Nat
  ximg : Option (Nat × Nat)
  decodes : Bool
deriving DecidableEq

/-- The struct `Slide`. `lines` holds the entries `lines[0 .. linecount-1]`. -/
structure Slide where
  linecount : Nat
  lines : List (List Char)
  img : Option Image
deriving DecidableEq

/-! ## The deck parser (`load`, lines 420-483) -/

/-- The characters one `fgets` call takes: at most `n`, stopping after a
newline or at the end of the stream. Returns them with the unread rest. -/
def readChars : Nat → List Char → List Char × List Char
  | 0, fp => ([], fp)
  | _ + 1, [] => ([], [])
  | n + 1, c :: fp =>
    if c = '\n' then ([c], fp)
    else (c :: (readChars n fp).1, (readChars n fp).2)

/-- The call `fgets(buf, size, fp)`: `none` is the `NULL` it returns at end of
stream; otherwise the bytes stored in `buf` and the unread rest of `fp`. -/
def fgets (size : Nat) (fp : List Char) : Option (List Char × List Char) :=
  if fp = [] then none else some (readChars (size - 1) fp)

/-- The C string held in a buffer filled with the given bytes: it ends at the
first NUL byte. -/
def cstr (raw : List Char) : List Char :=
  raw.takeWhile (fun c => c ≠ '\x00')

/-- The body of the `do ... while` loop of `load` (lines 445-473) for the
C string `buf`, on the slide `s` under construction. -/
def slideLine (pngopen : List Char → Option Image) (buf : List Char) (s : Slide) : Slide :=
  if buf.head? = none then s
  else if buf.head? = some '#' then s
  else
    let line0 := if buf.getLast? = some '\n' then buf.dropLast else buf
    let isImg := s.linecount = 0 ∧ line0.head? = some '@'
    let line1 := if isImg then line0.tail else line0
    let img := if isImg then pngopen line1 else s.img
    let line2 := if line1.head? = some '\\' then line1.tail else line1
    { linecount := s.linecount + 1, lines := s.lines ++ [line2], img := img }

/-- The loops of `load` (lines 429-479), one `fgets` call per step. `cur` is
`none` while control is in the loop that eats blank and comment lines (line
431), and `some s` while it is at the condition of the `do ... while` loop
(line 474) with slide `s = slides[slidecount]` under construction. `slides`
holds `slides[0 .. slidecount-1]`. The first argument bounds the number of
`fgets` calls; `none` tells that the bound was reached. -/
def loadLoop (size : Nat) (pngopen : List Char → Option Image) :
    Nat → List Char → Option Slide → List Slide → Option (List Slide)
  | 0, _, _, _ => none
  | fuel + 1, fp, cur, slides =>
    match fgets size fp, cur with
    | none, none => some slides
    | none, some s => some (slides ++ [s])
    | some (raw, rest), none =>
      if cstr raw ≠ ['\n'] ∧ (cstr raw).head? ≠ some '#' then
        loadLoop size pngopen fuel rest
          (some (slideLine pngopen (cstr raw) { linecount := 0, lines := [], img := none })) slides
      else loadLoop size pngopen fuel rest none slides
    | some (raw, rest), some s =>
      if cstr raw ≠ ['\n'] then
        loadLoop size pngopen fuel rest (some (slideLine pngopen (cstr raw) s)) slides
      else loadLoop size pngopen fuel rest none (slides ++ [s])

/-- The function `load(fp)` with `sizeof(buf) = size` (`BUFSIZ`), run on the
deck `slides` (`slidecount = slides.length`). `none`: the loops do not end
within `fp.length + 1` calls of `fgets` (only when `size < 2`);
`some (.error _)`: `die`; `some (.ok d)`: `load` returns with deck `d`. -/
def load (size : Nat) (pngopen : List Char → Option Image) (fp : List Char)
    (slides : List Slide) : Option (Except String (List Slide)) :=
  match loadLoop size pngopen (fp.length + 1) fp none slides with
  | none => none
  | some d => if d.length = 0 then some (.error "nuff: No slides in file") else some (.ok d)


/-! ## The reference parse of the deck format (specification, section 4.1) -/

/-- The lines of a stream, each with its newline; the last one may lack it. -/
def splitLines : List Char → List (List Char)
  | [] => []
  | c :: cs =>
    if c = '\n' then [c] :: splitLines cs
    else
      match splitLines cs with
      | [] => [[c]]
      | l :: ls => (c :: l) :: ls

/-- A blank line: exactly a newline. -/
def isBlank (l : List Char) : Bool := decide (l = ['\n'])

/-- A comment line: its first character is `#`. -/
def isComment (l : List Char) : Bool := decide (l.head? = some '#')

/-- The blocks among the first lines of a list, at most `n` lines being
looked at: blank lines and comment lines are skipped; a block begins at the
next line and ends before the next blank line, or at the end of the input. -/
def refBlocksAux : Nat → List (List Char) → List (List (List Char))
  | 0, _ => []
  | _ + 1, [] => []
  | n + 1, l :: ls =>
    if isBlank l || isComment l then refBlocksAux n ls
    else
      (l :: ls.takeWhile (fun x => !isBlank x)) ::
        refBlocksAux n (ls.dropWhile (fun x => !isBlank x)).tail

/-- The blocks of a list of lines. -/
def refBlocks (ls : List (List Char)) : List (List (List Char)) :=
  refBlocksAux ls.length ls

/-- A line without its trailing newline. -/
def stripNewline (l : List Char) : List Char :=
  if l.getLast? = some '\n' then l.dropLast else l

/-- A line without its leading backslash, if it has one. -/
def stripBackslash (l : List Char) : List Char :=
  if l.head? = some '\\' then l.tail else l

/-- The text lines of a block: its lines that are not comments, each without
its trailing newline and without one leading backslash. -/
def refTextLines (b : List (List Char)) : List (List Char) :=
  (b.filter (fun l => !isComment l)).map (fun l => stripBackslash (stripNewline l))

/-- The text slide of a block. -/
def refSlide (b : List (List Char)) : Slide :=
  { linecount := (refTextLines b).length, lines := refTextLines b, img := none }

/-- The reference parse of an input stream: one text slide per block. -/
def refParse (fp : List Char) : List Slide :=
  (refBlocks (splitLines fp)).map refSlide

/-- The first line of a block that is kept, that is, not a comment. -/
def firstRetained (b : List (List Char)) : Option (List Char) :=
  (b.filter (fun l => !isComment l)).head?

/-- The steps of `loadLoop` on a stream given as the list of buffers that
the successive `fgets` calls fill. -/
def runLines (pngopen : List Char → Option Image) :
    List (List Char) → Option Slide → List Slide → List Slide
  | [], none, slides => slides
  | [], some s, slides => slides ++ [s]
  | raw :: ls, none, slides =>
    if cstr raw ≠ ['\n'] ∧ (cstr raw).head? ≠ some '#' then
      runLines pngopen ls
        (some (slideLine pngopen (cstr raw) { linecount := 0, lines := [], img := none })) slides
    else runLines pngopen ls none slides
  | raw :: ls, some s, slides =>
    if cstr raw ≠ ['\n'] then runLines pngopen ls (some (slideLine pngopen (cstr raw) s)) slides
    else runLines pngopen ls none (slides ++ [s])

/-- The slide that the `do ... while` loop of `load` builds from the lines of
one block, starting from the slide `s`. -/
def blockSlide (pngopen : List Char → Option Image) (s : Slide) (b : List (List Char)) : Slide :=
  b.foldl (fun t l => slideLine pngopen l t) s

/-! ## The image pipeline (`pngread`, `pngprepare`, `pngscale`, `pngdraw`) -/

/-- The modulus `2 ^ 32` of `unsigned int` arithmetic. -/
def UINT : Nat := 4294967296

/-- The struct `XWindow`: the window size `w`, `h` and the usable size `uw`,
`uh` (all of type `int`, never negative: a window dimension and 0.75 times
it). The display is external: `depth` is `DefaultDepth(xw.dpy, xw.scr)` and
`ximage` tells whether `XCreateImage` and `XInitImage` succeed. -/
structure XWindow where
  w : Nat
  h : Nat
  uw : Nat
  uh : Nat
  depth : Nat
  ximage : Bool
deriving DecidableEq

/-- The calls made to the display and to `stderr`, as far as they are
recorded: `XClearWindow`; the cover painted when blanked; the text of a slide
with the block width and height it is centred by; the progress bar with its
length; `eprintf` with the file name; `pngdraw` (`XPutImage`, `XFlush`) with
the size of the `XImage`. -/
inductive Ev where
  | clear
  | cover
  | text (lines : List (List Char)) (width height : Nat)
  | progress (len : Int)
  | eprintf (msg : String) (name : Option (List Char))
  | putimage (width height : Nat)
deriving DecidableEq

/-- The function `pngread` on a non-null image (every caller passes one):
the return value and the image afterwards. Decoding is external: it succeeds
if and only if `img.decodes`. -/
def pngread (img : Image) : Nat × Image :=
  if img.state &&& LOADED ≠ 0 then (2, img)
  else if img.decodes then (1, { img with state := img.state ||| LOADED })
  else (0, img)

/-- The output size computed by `pngprepare` (lines 257-263) from the usable
size `uw`, `uh` and the native size of the image: `(width, height)` as
`unsigned int` values, which is how `XCreateImage` and `pngscale` take them.
`none`: a division by zero. -/
def pngprepareSize (uw uh bufwidth bufheight : Nat) : Option (Nat × Nat) :=
  if (uw * bufheight) % UINT > (uh * bufwidth) % UINT then
    if bufheight = 0 then none
    else some ((bufwidth * uh) % UINT / bufheight, uh)
  else
    if bufwidth = 0 then none
    else some (uw, (bufheight * uw) % UINT / bufwidth)

/-- The inner loop of `pngscale` (lines 296-302): the source columns
`bufx >> 10` read for the remaining `n` destination columns. -/
def pngscaleRow (dx : Nat) : Nat → Nat → List Nat
  | 0, _ => []
  | n + 1, bufx => (bufx >>> 10) :: pngscaleRow dx n ((bufx + dx) % UINT)

/-- The function `pngscale` for a source of `bufwidth` by `bufheight` pixels
and a destination of `width` by `height`: for every destination row the
offset of `ibuf` in `img->buf` and the source columns read. `none`: the
division by zero in `dx = (img->bufwidth << 10) / width`. -/
def pngscale (bufwidth bufheight width height : Nat) : Option (List (Nat × List Nat)) :=
  if width = 0 then none
  else
    let dx := (bufwidth <<< 10) % UINT / width
    some ((List.range height).map fun y =>
      (((y * bufheight) % UINT / height * bufwidth) % UINT * 3 % UINT,
        pngscaleRow dx width (bufwidth / width)))

/-- The function `pngprepare`: the return value and the image afterwards, or
the message of `die`; a division by zero ends the run as well. -/
def pngprepare (xw : XWindow) (img : Image) : Except String (Nat × Image) :=
  match pngprepareSize xw.uw xw.uh img.bufwidth img.bufheight with
  | none => .error "division by zero"
  | some (width, height) =>
    if xw.depth < 24 then .error "nuff: Display color depths < 24 not supported"
    else if xw.ximage = false then .error "nuff: Unable to create XImage"
    else
      match pngscale img.bufwidth img.bufheight width height with
      | none => .error "division by zero"
      | some _ =>
        .ok (1, { img with ximg := some (width, height), state := img.state ||| SCALED })

/-- The function `pngdraw`: it puts the `XImage` on the window and changes
nothing in the image. -/
def pngdraw (img : Image) : List Ev :=
  match img.ximg with
  | some (width, height) => [Ev.putimage width height]
  | none => []

/-! ## The text fitter (`getfontsize`, lines 317-344) -/

/-- The number of font scales (`config.def.h`). -/
def NUMFONTSCALES : Nat := 42

/-- The macro `LIMIT(x, a, b)`: the value it assigns to `x`. -/
def LIMIT (x a b : Int) : Int :=
  if x < a then a else if x > b then b else x

/-- The font ladder `fonts[0 .. NUMFONTSCALES-1]` and the measurements taken
with it, all external. `getwidth j text` is `drw_fontset_getwidth(d, text)`
while `fonts[j]` is selected. The two expressions of `getfontsize` in `float`
arithmetic are taken as given: `fits j linecount uh` is the test
`fonts[j]->h * lfac <= xw.uh`, and `height j linecount` is the value
`fonts[j]->h * lfac` stored in `*height`. -/
structure Fonts where
  getwidth : Nat → List Char → Nat
  fits : Nat → Nat → Nat → Bool
  height : Nat → Nat → Nat

/-- The loop "fit height" (lines 325-327), entered with `j = k - 1`: the
value of `j` when it ends, `-1` when no scale fits. -/
def fitHeight (fits : Nat → Bool) : Nat → Int
  | 0 => -1
  | k + 1 => if fits k then (k : Int) else fitHeight fits k

/-- The `while` loop that shrinks the scale for one line (lines 336-339),
entered with scale index `j` and measured width `curw`: the scale index and
the value of `curw` when it ends. -/
def shrink (F : Fonts) (uw : Nat) (line : List Char) : Nat → Nat → Nat × Nat
  | 0, curw => (0, curw)
  | j + 1, curw =>
    if curw > uw then shrink F uw line j (F.getwidth j line) else (j + 1, curw)

/-- The loop "fit width" (lines 333-342) over the remaining lines, entered
with scale index `j` and `*width = width`: the scale index and `*width` when
it ends. -/
def fitWidth (F : Fonts) (uw : Nat) : List (List Char) → Nat → Nat → Nat × Nat
  | [], j, width => (j, width)
  | line :: rest, j, width =>
    let curw := F.getwidth j line
    let newmax := decide (curw ≥ width)
    let r := shrink F uw line j curw
    fitWidth F uw rest r.1 (if newmax then r.2 else width)

/-- The scale index `j` after the part "fit height" of `getfontsize` (lines
325-328): the loop, then `LIMIT(j, 0, NUMFONTSCALES - 1)`. -/
def fitHeightIndex (F : Fonts) (xw : XWindow) (s : Slide) : Nat :=
  (LIMIT (fitHeight (fun j => F.fits j s.linecount xw.uh) NUMFONTSCALES) 0
    (NUMFONTSCALES - 1)).toNat

/-- The function `getfontsize`: the scale index `j` of the font set it leaves
selected, `*width` and `*height`. -/
def getfontsize (F : Fonts) (xw : XWindow) (s : Slide) : Nat × Nat × Nat :=
  let r := fitWidth F xw.uw (s.lines.take s.linecount) (fitHeightIndex F xw s) 0
  (r.1, r.2, F.height r.1 s.linecount)

/-- The values of `curw` at the end of the shrink loop of each line, in the
run of the loop "fit width" entered with scale index `j`. -/
def shrunkWidths (F : Fonts) (uw : Nat) : List (List Char) → Nat → List Nat
  | [], _ => []
  | line :: rest, j =>
    let r := shrink F uw line j (F.getwidth j line)
    r.2 :: shrunkWidths F uw rest r.1

/-- The value of `newmax` (line 335) for `line` when its turn comes after the
lines `pre`, in the run of the loop "fit width" entered with scale index `j`
and `*width = width`: whether the first measurement of `line` is at least the
running `*width`. -/
def newmax (F : Fonts) (uw : Nat) (j width : Nat) (pre : List (List Char))
    (line : List Char) : Bool :=
  decide (F.getwidth (fitWidth F uw pre j width).1 line ≥ (fitWidth F uw pre j width).2)

/-! ## Redraw and navigation (`xdraw`, `advance`, `blank`, `configure`) -/

/-- The globals of `nuff.c`: `slides` holds `slides[0 .. slidecount-1]`, so
that `slidecount` is its length; `out` lists the calls made to the display
and to `stderr`, oldest first. -/
structure State where
  slides : List Slide
  idx : Int
  xw : XWindow
  blanked : Bool
  out : List Ev
deriving DecidableEq

/-- The global `slidecount`. -/
def State.slidecount (g : State) : Int := (g.slides.length : Int)

/-- The image `slides[i].img`, if `slides[i]` is in the deck and has one. -/
def State.img (g : State) (i : Nat) : Option Image :=
  (g.slides[i]?).bind (fun s => s.img)

/-- The height of the progress bar (`config.def.h`). -/
def progressheight : Nat := 5

/-- The value `~m` of type `int`, as a 32-bit pattern. -/
def bitnot (m : Nat) : Nat := 4294967295 - m

/-- The values that the field `state` of an image can take. `pngopen` zeroes
the image (line 155), and the statements of `nuff.c` that write `state` are:
`pngread` (line 248); `pngprepare` (line 277), which `xdraw` calls only on an
image that is `LOADED` (line 582); `reload` and `advance` (lines 416, 492);
`configure` (line 713). -/
inductive Reachable : Nat → Prop where
  | opened : Reachable NONE
  | read (s : Nat) : Reachable s → Reachable (s ||| LOADED)
  | prepared (s : Nat) : Reachable s → s &&& LOADED ≠ 0 → Reachable (s ||| SCALED)
  | left (s : Nat) : Reachable s → Reachable (s &&& bitnot (DRAWN ||| SCALED))
  | resized (s : Nat) : Reachable s → Reachable (s &&& bitnot SCALED)

/-- The slides after `f` was applied to the image, if any, of `slides[i]`. -/
def updImg (f : Image → Image) : List Slide → Nat → List Slide
  | [], _ => []
  | s :: ss, 0 => { s with img := s.img.map f } :: ss
  | s :: ss, i + 1 => s :: updImg f ss i

/-- The branches of `xdraw` for a slide with an image (lines 580-586): the
image afterwards and the calls made, or the message of `die`. -/
def xdrawImage (xw : XWindow) (name : Option (List Char)) (im : Image) :
    Except String (Image × List Ev) :=
  let r := if im.state &&& LOADED = 0 then pngread im else (1, im)
  if r.1 = 0 then .ok (r.2, [Ev.eprintf "Unable to read image %s." name])
  else if r.2.state &&& SCALED = 0 then
    match pngprepare xw r.2 with
    | .error e => .error e
    | .ok p =>
      if p.1 = 0 then
        .ok (p.2, [Ev.eprintf "Unable to prepare image %s for drawing." name])
      else if p.2.state &&& DRAWN = 0 then .ok (p.2, pngdraw p.2)
      else .ok (p.2, [])
  else if r.2.state &&& DRAWN = 0 then .ok (r.2, pngdraw r.2)
  else .ok (r.2, [])

/-- The function `xdraw`. An index outside the deck is an error. -/
def xdraw (F : Fonts) (g : State) : Except String State :=
  if g.idx < 0 then .error "slides[idx] out of bounds"
  else
    match g.slides[g.idx.toNat]? with
    | none => .error "slides[idx] out of bounds"
    | some s =>
      let fs := getfontsize F g.xw s
      if g.blanked then .ok { g with out := g.out ++ [Ev.clear, Ev.cover] }
      else
        match s.img with
        | none =>
          .ok { g with out := g.out ++ [Ev.clear, Ev.text (s.lines.take s.linecount) fs.2.1 fs.2.2] ++
            (if g.idx ≠ 0 ∧ progressheight ≠ 0 then
              [Ev.progress (Int.tdiv ((g.xw.w : Int) * g.idx) (g.slidecount - 1))]
            else []) }
        | some im =>
          match xdrawImage g.xw s.lines.head? im with
          | .error e => .error e
          | .ok r =>
            .ok { g with slides := updImg (fun _ => r.1) g.slides g.idx.toNat,
                         out := g.out ++ [Ev.clear] ++ r.2 }

/-- The prefetch of `advance` for `slides[i]` (lines 495-498): `pngread` on
its image, if it has one, and `die` when that fails. -/
def prefetch (i : Nat) (g : State) : Except String State :=
  match g.slides[i]? with
  | none => .error "slides[i] out of bounds"
  | some s =>
    match s.img with
    | none => .ok g
    | some im =>
      if (pngread im).1 = 0 then .error "Unable to read image %s."
      else .ok { g with slides := updImg (fun _ => (pngread im).2) g.slides i }

/-- The function `advance` with `arg->i = arg`. The sum `idx + arg->i` must
be in the range of `int`. -/
def advance (F : Fonts) (arg : Int) (g : State) : Except String State :=
  if g.idx + arg < -2147483648 ∨ 2147483647 < g.idx + arg then .error "signed overflow"
  else
    let new_idx := LIMIT (g.idx + arg) 0 (g.slidecount - 1)
    if new_idx ≠ g.idx then
      let g1 := { g with
        slides := updImg (fun im => { im with state := im.state &&& bitnot (DRAWN ||| SCALED) })
          g.slides g.idx.toNat,
        idx := new_idx }
      match xdraw F g1 with
      | .error e => .error e
      | .ok g2 =>
        match (if g2.slidecount > g2.idx + 1 then prefetch (g2.idx + 1).toNat g2 else .ok g2) with
        | .error e => .error e
        | .ok g3 => if 0 < g3.idx then prefetch (g3.idx - 1).toNat g3 else .ok g3
    else .ok g

/-- The function `blank`. -/
def blank (F : Fonts) (g : State) : Except String State :=
  xdraw F { g with blanked := !g.blanked }

/-- The state after the first two statements of `configure` (lines 711-713),
before its call of `xdraw`: `resize` has stored the new sizes (`uw`, `uh` are
0.75 times `width`, `height` in `float` arithmetic, taken as given) and the
image of the current slide has been invalidated. -/
def configureInvalidate (width height uw uh : Nat) (g : State) : State :=
  { g with
    xw := { g.xw with w := width, h := height, uw := uw, uh := uh },
    slides := updImg (fun im => { im with state := im.state &&& bitnot SCALED })
      g.slides g.idx.toNat }

/-- The function `configure`. -/
def configure (F : Fonts) (width height uw uh : Nat) (g : State) : Except String State :=
  xdraw F (configureInvalidate width height uw uh g)

/-! ## Concrete inputs -/

/-- A file system with the single image file `foo.img`, 640 by 480. -/
def pngopenFoo (filename : List Char) : Option Image :=
  if filename = "foo.img".toList then
    some { bufwidth := 640, bufheight := 480, state := NONE, ximg := none, decodes := true }
  else none

/-- An input of one comment line of 8192 characters and its newline. -/
def longComment : List Char := ('#' :: List.replicate 8190 'x') ++ ['x', '\n']

/-- A font ladder in which the font of scale `j` has height `j + 1` and every
character is `j + 1` wide. With `linespacing = 1.1` the factor `lfac` is
`(11 * (linecount - 1) + 10) / 10`, the difference `linecount - 1` being
taken in `unsigned int`; the height test and the block height are computed
with it exactly. -/
def ladder : Fonts :=
  { getwidth := fun j text => (j + 1) * text.length,
    fits := fun j n uh => decide ((j + 1) * (11 * ((n + 4294967295) % 4294967296) + 10) ≤ 10 * uh),
    height := fun j n => (j + 1) * (11 * ((n + 4294967295) % 4294967296) + 10) / 10 }

/-- A window of 112 by 120 with a usable area of 84 by 90. -/
def xwSmall : XWindow :=
  { w := 112, h := 120, uw := 84, uh := 90, depth := 24, ximage := true }

/-- A slide of the two text lines `ab` and `abcde`. -/
def slideTwoLines : Slide :=
  { linecount := 2, lines := ["ab".toList, "abcde".toList], img := none }

/-- A window of 1024 by 576 with a usable area of 768 by 432. -/
def xwWide : XWindow :=
  { w := 1024, h := 576, uw := 768, uh := 432, depth := 24, ximage := true }

/-- An image of 640 by 480 that libpng can decode, in the given state. -/
def image640 (state : Nat) : Image :=
  { bufwidth := 640, bufheight := 480, state := state, ximg := none, decodes := true }

/-- A deck of a text slide, an image slide and a text slide, shown from its
first slide in a window of 1024 by 576, no image decoded yet. -/
def deck3 : State :=
  { slides := [{ linecount := 1, lines := ["Hello".toList], img := none },
               { linecount := 1, lines := ["foo.img".toList], img := some (image640 NONE) },
               { linecount := 1, lines := ["World".toList], img := none }],
    idx := 0, xw := xwWide, blanked := false, out := [] }

/-- A deck of one image slide whose image is in the given state. -/
def deck1 (state : Nat) : State :=
  { slides := [{ linecount := 1, lines := ["foo.img".toList], img := some (image640 state) }],
    idx := 0, xw := xwWide, blanked := false, out := [] }

/-! ## Reading lines with `fgets` -/

theorem splitLines_eq_nil {fp : List Char} (h : splitLines fp = []) : fp = [] := by
  cases fp with
  | nil => rfl
  | cons c cs =>
    simp only [splitLines] at h
    split at h
    · simp at h
    · split at h <;> simp at h

theorem readChars_nil (n : Nat) : readChars n [] = ([], []) := by
  cases n <;> rfl

theorem readChars_splitLines (fp : List Char) :
    ∀ (n : Nat) (l : List Char) (ls : List (List Char)), splitLines fp = l :: ls → l.length ≤ n →
      ∃ rest, readChars n fp = (l, rest) ∧ splitLines rest = ls ∧ rest.length < fp.length := by
  induction fp with
  | nil => intro n l ls h; simp [splitLines] at h
  | cons c cs ih =>
    intro n l ls h hn
    simp only [splitLines] at h
    by_cases hc : c = '\n'
    · rw [if_pos hc] at h
      obtain ⟨rfl, rfl⟩ := List.cons.inj h
      obtain ⟨m, rfl⟩ : ∃ m, n = m + 1 := ⟨n - 1, by simp at hn; omega⟩
      exact ⟨cs, by simp [readChars, hc], rfl, by simp⟩
    · rw [if_neg hc] at h
      cases hs : splitLines cs with
      | nil =>
        rw [hs] at h
        obtain ⟨rfl, rfl⟩ := List.cons.inj h
        have hcs := splitLines_eq_nil hs
        subst hcs
        obtain ⟨m, rfl⟩ : ∃ m, n = m + 1 := ⟨n - 1, by simp at hn; omega⟩
        exact ⟨[], by simp [readChars, hc, readChars_nil], rfl, by simp⟩
      | cons l0 ls0 =>
        rw [hs] at h
        obtain ⟨rfl, rfl⟩ := List.cons.inj h
        obtain ⟨m, rfl⟩ : ∃ m, n = m + 1 := ⟨n - 1, by simp at hn; omega⟩
        obtain ⟨rest, h1, h2, h3⟩ := ih m l0 ls0 hs (by simp at hn; omega)
        exact ⟨rest, by simp [readChars, hc, h1], h2, by simp; omega⟩

theorem loadLoop_eq_runLines (size : Nat) (pngopen : List Char → Option Image) :
    ∀ (fuel : Nat) (fp : List Char) (cur : Option Slide) (slides : List Slide),
      fp.length < fuel → (∀ l ∈ splitLines fp, l.length < size) →
      loadLoop size pngopen fuel fp cur slides = some (runLines pngopen (splitLines fp) cur slides) := by
  intro fuel
  induction fuel with
  | zero => intro fp cur slides h; omega
  | succ fuel ih =>
    intro fp cur slides hlen hshort
    cases hs : splitLines fp with
    | nil =>
      have := splitLines_eq_nil hs
      subst this
      cases cur <;> simp [loadLoop, fgets, runLines]
    | cons l ls =>
      have hl : l.length < size := hshort l (by simp [hs])
      obtain ⟨rest, h1, h2, h3⟩ := readChars_splitLines fp (size - 1) l ls hs (by omega)
      have hne : fp ≠ [] := by intro h; subst h; simp [splitLines] at hs
      have hrest : ∀ l ∈ splitLines rest, l.length < size := by
        intro x hx; apply hshort; rw [hs, ← h2]; exact List.mem_cons_of_mem _ hx
      have hfg : fgets size fp = some (l, rest) := by simp [fgets, hne, h1]
      cases cur with
      | none =>
        simp only [loadLoop, hfg, runLines]
        split
        · rw [ih rest _ _ (by omega) hrest, h2]
        · rw [ih rest _ _ (by omega) hrest, h2]
      | some s =>
        simp only [loadLoop, hfg, runLines]
        split
        · rw [ih rest _ _ (by omega) hrest, h2]
        · rw [ih rest _ _ (by omega) hrest, h2]


/-! ## `load` returns or dies: its loops end -/

theorem readChars_rest_le (n : Nat) :
    ∀ fp : List Char, (readChars n fp).2.length ≤ fp.length := by
  induction n with
  | zero => intro fp; simp [readChars]
  | succ n ih =>
    intro fp
    cases fp with
    | nil => simp [readChars]
    | cons c cs =>
      simp only [readChars]
      split
      · simp
      · have := ih cs
        simp only [List.length_cons]
        omega

theorem fgets_rest_lt (size : Nat) (hsize : 2 ≤ size) (fp raw rest : List Char)
    (h : fgets size fp = some (raw, rest)) : rest.length < fp.length := by
  unfold fgets at h
  split at h
  · cases h
  · obtain ⟨m, hm⟩ : ∃ m, size - 1 = m + 1 := ⟨size - 2, by omega⟩
    rw [hm] at h
    cases fp with
    | nil => contradiction
    | cons c cs =>
      simp only [readChars] at h
      split at h
      · injection h with h
        injection h with _ h
        subst h
        simp
      · injection h with h
        injection h with _ h
        subst h
        have := readChars_rest_le m cs
        simp only [List.length_cons]
        omega

theorem loadLoop_total (size : Nat) (hsize : 2 ≤ size) (pngopen : List Char → Option Image) :
    ∀ (fuel : Nat) (fp : List Char) (cur : Option Slide) (slides : List Slide),
      fp.length < fuel → ∃ d, loadLoop size pngopen fuel fp cur slides = some d := by
  intro fuel
  induction fuel with
  | zero => intro fp cur slides h; omega
  | succ fuel ih =>
    intro fp cur slides hlen
    cases hfg : fgets size fp with
    | none => cases cur <;> simp [loadLoop, hfg]
    | some p =>
      obtain ⟨raw, rest⟩ := p
      have hlt := fgets_rest_lt size hsize fp raw rest hfg
      cases cur with
      | none =>
        simp only [loadLoop, hfg]
        split
        · exact ih rest _ _ (by omega)
        · exact ih rest _ _ (by omega)
      | some s =>
        simp only [loadLoop, hfg]
        split
        · exact ih rest _ _ (by omega)
        · exact ih rest _ _ (by omega)

theorem load_total (size : Nat) (hsize : 2 ≤ size) (pngopen : List Char → Option Image)
    (fp : List Char) (slides : List Slide) :
    ∃ r, load size pngopen fp slides = some r := by
  obtain ⟨d, hd⟩ := loadLoop_total size hsize pngopen _ fp none slides (Nat.lt_succ_self _)
  unfold load
  rw [hd]
  by_cases h : d.length = 0
  · exact ⟨.error "nuff: No slides in file", by simp [h]⟩
  · exact ⟨.ok d, by simp [h]⟩

/-! ## The loops of `load` and the blocks of the input -/

theorem cstr_eq_self {l : List Char} (h : '\x00' ∉ l) : cstr l = l := by
  unfold cstr
  rw [List.takeWhile_eq_self_iff]
  intro c hc
  have : c ≠ '\x00' := fun e => h (e ▸ hc)
  simpa using this

theorem refBlocksAux_nil (n : Nat) : refBlocksAux n [] = [] := by
  cases n <;> rfl

theorem length_afterBlank_le (ls : List (List Char)) :
    (ls.dropWhile (fun x => !isBlank x)).tail.length ≤ ls.length := by
  have h := (List.dropWhile_sublist (l := ls) (fun x => !isBlank x)).length_le
  simp only [List.length_tail]
  omega

theorem refBlocksAux_fuel (n : Nat) :
    ∀ (m : Nat) (ls : List (List Char)), ls.length ≤ n → ls.length ≤ m →
      refBlocksAux n ls = refBlocksAux m ls := by
  induction n with
  | zero =>
    intro m ls h _
    have : ls = [] := List.length_eq_zero.mp (by omega)
    subst this
    rw [refBlocksAux_nil, refBlocksAux_nil]
  | succ n ih =>
    intro m ls hn hm
    cases ls with
    | nil => rw [refBlocksAux_nil, refBlocksAux_nil]
    | cons l ls =>
      obtain ⟨m, rfl⟩ : ∃ k, m = k + 1 := ⟨m - 1, by simp at hm; omega⟩
      simp only [List.length_cons] at hn hm
      simp only [refBlocksAux]
      have hle := length_afterBlank_le ls
      rw [ih m ls (by omega) (by omega),
        ih m (ls.dropWhile (fun x => !isBlank x)).tail (by omega) (by omega)]

theorem refBlocks_cons (l : List Char) (ls : List (List Char)) :
    refBlocks (l :: ls) =
      if isBlank l || isComment l then refBlocks ls
      else (l :: ls.takeWhile (fun x => !isBlank x)) ::
        refBlocks (ls.dropWhile (fun x => !isBlank x)).tail := by
  have hle := length_afterBlank_le ls
  simp only [refBlocks, List.length_cons, refBlocksAux]
  rw [refBlocksAux_fuel ls.length (ls.dropWhile (fun x => !isBlank x)).tail.length
    (ls.dropWhile (fun x => !isBlank x)).tail hle (le_refl _)]

theorem runLines_eq_blocks (pngopen : List Char → Option Image) (ls : List (List Char)) :
    (∀ l ∈ ls, '\x00' ∉ l) →
    (∀ slides, runLines pngopen ls none slides =
      slides ++ (refBlocks ls).map (blockSlide pngopen { linecount := 0, lines := [], img := none })) ∧
    (∀ s slides, runLines pngopen ls (some s) slides =
      slides ++ [blockSlide pngopen s (ls.takeWhile (fun x => !isBlank x))] ++
        (refBlocks (ls.dropWhile (fun x => !isBlank x)).tail).map
          (blockSlide pngopen { linecount := 0, lines := [], img := none })) := by
  induction ls with
  | nil =>
    intro _
    constructor
    · intro slides; simp [runLines, refBlocks, refBlocksAux]
    · intro s slides; simp [runLines, refBlocks, refBlocksAux, blockSlide]
  | cons l ls ih =>
    intro hnul
    have hl : cstr l = l := cstr_eq_self (hnul l (by simp))
    obtain ⟨ih1, ih2⟩ := ih (fun x hx => hnul x (List.mem_cons_of_mem _ hx))
    constructor
    · intro slides
      rw [refBlocks_cons]
      simp only [runLines, hl]
      by_cases hb : l = ['\n']
      · simp [hb, isBlank, ih1]
      · by_cases hc : l.head? = some '#'
        · simp [hb, hc, isBlank, isComment, ih1]
        · simp [hb, hc, isBlank, isComment, ih2, blockSlide]
    · intro s slides
      simp only [runLines, hl]
      by_cases hb : l = ['\n']
      · simp [hb, isBlank, ih1, blockSlide]
      · simp [hb, isBlank, ih2, blockSlide]


/-! ## Lines and blocks: membership facts -/

theorem splitLines_mem (fp : List Char) :
    ∀ l ∈ splitLines fp, l ≠ [] ∧ ∀ c ∈ l, c ∈ fp := by
  induction fp with
  | nil => intro l h; simp [splitLines] at h
  | cons c cs ih =>
    intro l h
    simp only [splitLines] at h
    by_cases hc : c = '\n'
    · rw [if_pos hc] at h
      rcases List.mem_cons.mp h with rfl | h
      · simp
      · exact ⟨(ih l h).1, fun x hx => List.mem_cons_of_mem _ ((ih l h).2 x hx)⟩
    · rw [if_neg hc] at h
      cases hs : splitLines cs with
      | nil => rw [hs] at h; simp at h; subst h; simp
      | cons l0 ls0 =>
        rw [hs] at h
        rcases List.mem_cons.mp h with rfl | h
        · refine ⟨by simp, fun x hx => ?_⟩
          rcases List.mem_cons.mp hx with rfl | hx
          · simp
          · exact List.mem_cons_of_mem _ ((ih l0 (by simp [hs])).2 x hx)
        · exact ⟨(ih l (by simp [hs, h])).1,
            fun x hx => List.mem_cons_of_mem _ ((ih l (by simp [hs, h])).2 x hx)⟩

theorem tail_dropWhile_subset (p : List Char → Bool) (ls : List (List Char)) :
    ∀ l ∈ (ls.dropWhile p).tail, l ∈ ls := fun _ h =>
  List.dropWhile_subset p (List.mem_of_mem_tail h)

theorem refBlocksAux_mem (n : Nat) :
    ∀ (ls : List (List Char)), ∀ b ∈ refBlocksAux n ls,
      (∀ l ∈ b, l ∈ ls) ∧ ∃ l rest, b = l :: rest ∧ isBlank l = false ∧ isComment l = false := by
  induction n with
  | zero => intro ls b h; simp [refBlocksAux] at h
  | succ n ih =>
    intro ls b h
    cases ls with
    | nil => simp [refBlocksAux] at h
    | cons l ls =>
      simp only [refBlocksAux] at h
      by_cases hs : (isBlank l || isComment l) = true
      · rw [if_pos hs] at h
        obtain ⟨h1, h2⟩ := ih ls b h
        exact ⟨fun x hx => List.mem_cons_of_mem _ (h1 x hx), h2⟩
      · rw [if_neg hs] at h
        rcases List.mem_cons.mp h with rfl | h
        · constructor
          · intro x hx
            rcases List.mem_cons.mp hx with rfl | hx
            · simp
            · exact List.mem_cons_of_mem _ (List.takeWhile_subset _ hx)
          · simp only [Bool.or_eq_true, not_or, Bool.not_eq_true] at hs
            exact ⟨l, _, rfl, hs.1, hs.2⟩
        · obtain ⟨h1, h2⟩ := ih _ b h
          exact ⟨fun x hx => List.mem_cons_of_mem _ (tail_dropWhile_subset _ ls x (h1 x hx)), h2⟩

/-! ## The slide of one block -/

theorem head?_stripNewline {l : List Char} {c : Char} (h : (stripNewline l).head? = some c) :
    l.head? = some c := by
  unfold stripNewline at h
  split at h
  · cases l with
    | nil => simp at h
    | cons a t =>
      cases t with
      | nil => simp at h
      | cons b t => simpa using h
  · exact h

theorem slideLine_comment (pngopen : List Char → Option Image) (l : List Char) (s : Slide)
    (h : isComment l = true) : slideLine pngopen l s = s := by
  have h1 : l.head? = some '#' := by simpa [isComment] using h
  simp [slideLine, h1]

theorem slideLine_text (pngopen : List Char → Option Image) (l : List Char) (s : Slide)
    (hne : l ≠ []) (hc : isComment l = false)
    (hat : s.linecount = 0 → l.head? ≠ some '@') :
    slideLine pngopen l s =
      { linecount := s.linecount + 1,
        lines := s.lines ++ [stripBackslash (stripNewline l)],
        img := s.img } := by
  have h1 : l.head? ≠ some '#' := by simpa [isComment] using hc
  have h0 : l.head? ≠ none := by
    cases l with
    | nil => exact absurd rfl hne
    | cons a t => simp
  have h2 : ¬ (s.linecount = 0 ∧ (stripNewline l).head? = some '@') :=
    fun h => hat h.1 (head?_stripNewline h.2)
  have h3 : ¬ (s.linecount = 0 ∧
      (if l.getLast? = some '\n' then l.dropLast else l).head? = some '@') := h2
  simp only [slideLine, if_neg h0, if_neg h1, if_neg h3]
  rfl

theorem slideLine_image (pngopen : List Char → Option Image) (l : List Char) (s : Slide)
    (hs : s.linecount = 0) (hat : (stripNewline l).head? = some '@') :
    slideLine pngopen l s =
      { linecount := 1,
        lines := s.lines ++ [stripBackslash (stripNewline l).tail],
        img := pngopen (stripNewline l).tail } := by
  have hl := head?_stripNewline hat
  have h1 : l.head? ≠ some '#' := by rw [hl]; decide
  have h0 : l.head? ≠ none := by rw [hl]; simp
  have h3 : (s.linecount = 0 ∧
      (if l.getLast? = some '\n' then l.dropLast else l).head? = some '@') := ⟨hs, hat⟩
  simp only [slideLine, if_neg h0, if_neg h1, if_pos h3]
  rw [hs]
  rfl

theorem blockSlide_text (pngopen : List Char → Option Image) (b : List (List Char)) :
    ∀ s : Slide, (∀ l ∈ b, l ≠ []) →
      (s.linecount = 0 → ∀ l, firstRetained b = some l → l.head? ≠ some '@') →
      blockSlide pngopen s b =
        { linecount := s.linecount + (refTextLines b).length,
          lines := s.lines ++ refTextLines b,
          img := s.img } := by
  induction b with
  | nil => intro s _ _; simp [blockSlide, refTextLines]
  | cons l b ih =>
    intro s hne hat
    have hb : blockSlide pngopen s (l :: b) = blockSlide pngopen (slideLine pngopen l s) b := by
      simp [blockSlide]
    rw [hb]
    by_cases hc : isComment l = true
    · rw [slideLine_comment pngopen l s hc,
        ih s (fun x hx => hne x (List.mem_cons_of_mem _ hx))
          (fun h0 x hx => hat h0 x (by simpa [firstRetained, hc] using hx))]
      simp [refTextLines, hc]
    · have hc2 : isComment l = false := by simpa using hc
      rw [slideLine_text pngopen l s (hne l (by simp)) hc2
          (fun h0 => hat h0 l (by simp [firstRetained, hc2])),
        ih _ (fun x hx => hne x (List.mem_cons_of_mem _ hx)) (fun h0 => by simp at h0)]
      simp [refTextLines, hc2, Nat.add_assoc, Nat.add_comm 1]


/-! ## `load` on inputs with short lines -/

theorem loadLoop_eq_blocks (size : Nat) (pngopen : List Char → Option Image) (fp : List Char)
    (slides : List Slide) (hshort : ∀ l ∈ splitLines fp, l.length < size)
    (hnul : '\x00' ∉ fp) :
    loadLoop size pngopen (fp.length + 1) fp none slides =
      some (slides ++ (refBlocks (splitLines fp)).map
        (blockSlide pngopen { linecount := 0, lines := [], img := none })) := by
  rw [loadLoop_eq_runLines size pngopen _ fp none slides (Nat.lt_succ_self _) hshort]
  have h := runLines_eq_blocks pngopen (splitLines fp)
    (fun l hl h0 => hnul ((splitLines_mem fp l hl).2 _ h0))
  rw [h.1]

theorem blockSlide_eq_refSlide (pngopen : List Char → Option Image) (fp : List Char)
    (b : List (List Char)) (hb : b ∈ refBlocks (splitLines fp))
    (hat : ∀ l, firstRetained b = some l → l.head? ≠ some '@') :
    blockSlide pngopen { linecount := 0, lines := [], img := none } b = refSlide b := by
  have hmem := (refBlocksAux_mem _ _ b hb).1
  rw [blockSlide_text pngopen b _ (fun l hl => (splitLines_mem fp l (hmem l hl)).1)
    (fun _ => hat)]
  simp [refSlide]

/-- C1: on an input whose lines are all shorter than the read buffer and free
of NUL bytes, and in which no block's first retained line starts with `@`,
`load` run on the empty deck produces exactly the slides of the reference
parse (and dies when there are none). -/
theorem load_reference_parse (size : Nat) (pngopen : List Char → Option Image)
    (fp : List Char)
    (hshort : ∀ l ∈ splitLines fp, l.length < size)
    (hnul : '\x00' ∉ fp)
    (hat : ∀ b ∈ refBlocks (splitLines fp), ∀ l, firstRetained b = some l →
      l.head? ≠ some '@') :
    load size pngopen fp [] =
      some (if refParse fp = [] then .error "nuff: No slides in file"
        else .ok (refParse fp)) := by
  have hmap : (refBlocks (splitLines fp)).map
      (blockSlide pngopen { linecount := 0, lines := [], img := none }) = refParse fp := by
    unfold refParse
    apply List.map_congr_left
    intro b hb
    exact blockSlide_eq_refSlide pngopen fp b hb (hat b hb)
  unfold load
  rw [loadLoop_eq_blocks size pngopen fp [] hshort hnul, hmap]
  simp only [List.nil_append]
  by_cases h : refParse fp = []
  · simp [h]
  · have : (refParse fp).length ≠ 0 := fun h0 => h (List.length_eq_zero.mp h0)
    simp [h, this]

/-- Witness of C1: `"Hello\n\nWorld\n"` gives the two slides `Hello` and
`World`, and the line `\#not a comment` gives the text `#not a comment`. -/
theorem load_reference_parse_witness :
    load 8192 (fun _ => none) "Hello\n\nWorld\n".toList [] =
        some (.ok [{ linecount := 1, lines := ["Hello".toList], img := none },
          { linecount := 1, lines := ["World".toList], img := none }]) ∧
      load 8192 (fun _ => none) "\\#not a comment\n".toList [] =
        some (.ok [{ linecount := 1, lines := ["#not a comment".toList], img := none }]) :=
  ⟨(load_reference_parse 8192 (fun _ => none) "Hello\n\nWorld\n".toList
      (by decide) (by decide) (by decide)).trans rfl,
    (load_reference_parse 8192 (fun _ => none) "\\#not a comment\n".toList
      (by decide) (by decide) (by decide)).trans rfl⟩


/-! ## Image slides -/

/-- C2, as stated, fails: the block `@foo.img` alone gives a slide whose image
was opened against `foo.img`, and whose line count is 1, not 0. -/
theorem load_image_slide_linecount :
    load 8192 pngopenFoo "@foo.img\n".toList [] =
        some (.ok [{ linecount := 1, lines := ["foo.img".toList],
                     img := pngopenFoo "foo.img".toList }]) ∧
      ¬ ∃ d s, load 8192 pngopenFoo "@foo.img\n".toList [] = some (.ok d) ∧ s ∈ d ∧
        s.linecount = 0 := by
  have h : load 8192 pngopenFoo "@foo.img\n".toList [] =
      some (.ok [{ linecount := 1, lines := ["foo.img".toList],
                   img := pngopenFoo "foo.img".toList }]) := rfl
  refine ⟨h, ?_⟩
  rintro ⟨d, s, hd, hs, h0⟩
  rw [h] at hd
  injection hd with hd
  injection hd with hd
  subst hd
  simp at hs
  subst hs
  simp at h0

/-- C2, amended: on an input with short, NUL-free lines, the block number `k`
whose first line is `@` followed by `p` gives the slide number `k`; its image
is the result of opening exactly `p`, its `lines[0]` is `p` less one leading
backslash, its further lines are the text lines of the rest of the block, and
its line count is the number of all these lines. -/
theorem load_image_slide (size : Nat) (pngopen : List Char → Option Image)
    (fp : List Char) (k : Nat) (l p : List Char) (rest : List (List Char))
    (hshort : ∀ l ∈ splitLines fp, l.length < size)
    (hnul : '\x00' ∉ fp)
    (hblock : (refBlocks (splitLines fp))[k]? = some (l :: rest))
    (hat : stripNewline l = '@' :: p) :
    ∃ d, load size pngopen fp [] = some (.ok d) ∧
      d[k]? = some { linecount := (refTextLines rest).length + 1,
                     lines := stripBackslash p :: refTextLines rest,
                     img := pngopen p } := by
  have hmemb : (l :: rest) ∈ refBlocks (splitLines fp) := by
    obtain ⟨hk, he⟩ := List.getElem?_eq_some_iff.mp hblock
    exact he ▸ List.getElem_mem hk
  have hmem := (refBlocksAux_mem _ _ _ hmemb).1
  have hslide : blockSlide pngopen { linecount := 0, lines := [], img := none } (l :: rest) =
      { linecount := (refTextLines rest).length + 1,
        lines := stripBackslash p :: refTextLines rest,
        img := pngopen p } := by
    have hb : blockSlide pngopen { linecount := 0, lines := [], img := none } (l :: rest) =
        blockSlide pngopen
          (slideLine pngopen l { linecount := 0, lines := [], img := none }) rest := by
      simp [blockSlide]
    rw [hb, slideLine_image pngopen l _ rfl (by rw [hat]; rfl), hat,
      blockSlide_text pngopen rest _
        (fun x hx => (splitLines_mem fp x (hmem x (List.mem_cons_of_mem _ hx))).1)
        (fun h0 => by simp at h0)]
    simp [Nat.add_comm]
  refine ⟨(refBlocks (splitLines fp)).map
    (blockSlide pngopen { linecount := 0, lines := [], img := none }), ?_, ?_⟩
  · unfold load
    rw [loadLoop_eq_blocks size pngopen fp [] hshort hnul]
    have hne : (refBlocks (splitLines fp)).length ≠ 0 := by
      intro h0
      rw [List.length_eq_zero.mp h0] at hmemb
      simp at hmemb
    simp [hne]
  · rw [List.getElem?_map, hblock]
    simp [hslide]

/-- Witness of the amended C2: `@foo.img`, a text line and a comment in one
block give an image slide with two lines. -/
theorem load_image_slide_witness :
    ∃ d, load 8192 pngopenFoo "#deck\n\n@foo.img\nbar\n#c\n".toList [] = some (.ok d) ∧
      d[0]? = some { linecount := 2, lines := ["foo.img".toList, "bar".toList],
                     img := pngopenFoo "foo.img".toList } :=
  load_image_slide 8192 pngopenFoo "#deck\n\n@foo.img\nbar\n#c\n".toList 0
    "@foo.img\n".toList "foo.img".toList ["bar\n".toList, "#c\n".toList]
    (by decide) (by decide) (by decide) (by decide)


/-! ## The empty deck -/

theorem runLines_eq_nil (pngopen : List Char → Option Image) (ls : List (List Char)) :
    ∀ (cur : Option Slide) (slides : List Slide),
      runLines pngopen ls cur slides = [] ↔
        slides = [] ∧ cur = none ∧
          ∀ l ∈ ls, ¬ (cstr l ≠ ['\n'] ∧ (cstr l).head? ≠ some '#') := by
  induction ls with
  | nil =>
    intro cur slides
    cases cur <;> simp [runLines]
  | cons raw ls ih =>
    intro cur slides
    cases cur with
    | none =>
      simp only [runLines]
      by_cases hc : cstr raw ≠ ['\n'] ∧ (cstr raw).head? ≠ some '#'
      · rw [if_pos hc, ih]
        constructor
        · rintro ⟨_, h, _⟩; cases h
        · rintro ⟨_, _, h⟩; exact absurd hc (h raw (by simp))
      · rw [if_neg hc, ih]
        constructor
        · rintro ⟨h1, _, h3⟩
          refine ⟨h1, trivial, fun l hl => ?_⟩
          rcases List.mem_cons.mp hl with rfl | hl
          · exact hc
          · exact h3 l hl
        · rintro ⟨h1, _, h3⟩
          exact ⟨h1, rfl, fun l hl => h3 l (List.mem_cons_of_mem _ hl)⟩
    | some s =>
      simp only [runLines]
      by_cases hc : cstr raw ≠ ['\n']
      · rw [if_pos hc, ih]
        constructor
        · rintro ⟨_, h, _⟩; cases h
        · rintro ⟨_, h, _⟩; cases h
      · rw [if_neg hc, ih]
        constructor
        · rintro ⟨h, _, _⟩; simp at h
        · rintro ⟨_, h, _⟩; cases h

theorem splitLines_head_newline (fp : List Char) :
    ∀ l ∈ splitLines fp, l.head? = some '\n' → l = ['\n'] := by
  induction fp with
  | nil => intro l h; simp [splitLines] at h
  | cons c cs ih =>
    intro l h hh
    simp only [splitLines] at h
    by_cases hc : c = '\n'
    · rw [if_pos hc] at h
      rcases List.mem_cons.mp h with rfl | h
      · rw [hc]
      · exact ih l h hh
    · rw [if_neg hc] at h
      cases hs : splitLines cs with
      | nil =>
        rw [hs] at h
        simp at h
        subst h
        simp at hh
        exact absurd hh hc
      | cons l0 ls0 =>
        rw [hs] at h
        rcases List.mem_cons.mp h with rfl | h
        · simp at hh
          exact absurd hh hc
        · exact ih l (by simp [hs, h]) hh

theorem head?_cstr (l : List Char) (c : Char) (hc : c ≠ '\x00') :
    (cstr l).head? = some c ↔ l.head? = some c := by
  cases l with
  | nil => simp [cstr]
  | cons a t =>
    by_cases ha : a = '\x00'
    · subst ha
      simp [cstr, List.takeWhile]
      exact fun h => hc h.symm
    · simp [cstr, List.takeWhile, ha]

theorem cstr_eq_newline (fp : List Char) (l : List Char) (hl : l ∈ splitLines fp) :
    cstr l = ['\n'] ↔ l = ['\n'] := by
  constructor
  · intro h
    apply splitLines_head_newline fp l hl
    rw [← head?_cstr l '\n' (by decide), h]
    rfl
  · intro h
    subst h
    rfl

theorem readChars_prefix (l rest : List Char) (h : '\n' ∉ l) :
    readChars l.length (l ++ rest) = (l, rest) := by
  induction l with
  | nil => rfl
  | cons c l ih =>
    have hc : c ≠ '\n' := fun e => h (by simp [e])
    have hl : '\n' ∉ l := fun e => h (List.mem_cons_of_mem _ e)
    simp [readChars, hc, ih hl]

theorem splitLines_one_line (l : List Char) (h : '\n' ∉ l) :
    splitLines (l ++ ['\n']) = [l ++ ['\n']] := by
  induction l with
  | nil => rfl
  | cons c l ih =>
    have hc : c ≠ '\n' := fun e => h (by simp [e])
    have hl : '\n' ∉ l := fun e => h (List.mem_cons_of_mem _ e)
    simp [splitLines, hc, ih hl]

theorem load_comment_longer_than_buffer (m : Nat) (pngopen : List Char → Option Image) :
    (∀ l ∈ splitLines (('#' :: List.replicate (m + 1) 'x') ++ ['x', '\n']),
        l.head? = some '#') ∧
      load (m + 3) pngopen (('#' :: List.replicate (m + 1) 'x') ++ ['x', '\n']) [] =
        some (.ok [{ linecount := 1, lines := [['x']], img := none }]) := by
  have hx : '\n' ∉ List.replicate (m + 1) 'x' := by
    intro h
    have := List.eq_of_mem_replicate h
    exact absurd this (by decide)
  have hx2 : '\n' ∉ '#' :: List.replicate (m + 1) 'x' := by
    intro h
    rcases List.mem_cons.mp h with h | h
    · exact absurd h (by decide)
    · exact hx h
  constructor
  · have h1 : ('#' :: List.replicate (m + 1) 'x') ++ ['x', '\n'] =
        (('#' :: List.replicate (m + 1) 'x') ++ ['x']) ++ ['\n'] := by
      rw [List.append_assoc]; rfl
    have hsplit := splitLines_one_line (('#' :: List.replicate (m + 1) 'x') ++ ['x'])
      (by
        intro h
        rcases List.mem_append.mp h with h | h
        · exact hx2 h
        · exact absurd (List.mem_singleton.mp h) (by decide))
    intro l hl
    rw [h1, hsplit] at hl
    rw [List.mem_singleton.mp hl]
    rfl
  · have hlen : ('#' :: List.replicate (m + 1) 'x').length = m + 2 := by
      rw [List.length_cons, List.length_replicate]
    have hread : readChars (m + 2) (('#' :: List.replicate (m + 1) 'x') ++ ['x', '\n']) =
        ('#' :: List.replicate (m + 1) 'x', ['x', '\n']) := by
      have := readChars_prefix ('#' :: List.replicate (m + 1) 'x') ['x', '\n'] hx2
      rw [hlen] at this
      exact this
    have hfg : fgets (m + 3) (('#' :: List.replicate (m + 1) 'x') ++ ['x', '\n']) =
        some ('#' :: List.replicate (m + 1) 'x', ['x', '\n']) := by
      have hne : ('#' :: List.replicate (m + 1) 'x') ++ ['x', '\n'] ≠ [] := by
        intro h; cases h
      simp only [fgets, if_neg hne]
      exact congrArg some hread
    have hhead : (cstr ('#' :: List.replicate (m + 1) 'x')).head? = some '#' :=
      (head?_cstr _ '#' (by decide)).mpr rfl
    have hflen : (('#' :: List.replicate (m + 1) 'x') ++ ['x', '\n']).length + 1 =
        (m + 2) + 1 + 1 + 1 := by
      rw [List.length_append, hlen]; rfl
    have hfg2 : fgets (m + 3) ['x', '\n'] = some (['x', '\n'], []) := by
      have hc : ('x' = '\n') = False := by decide
      simp [fgets, readChars, hc]
    have hfg3 : fgets (m + 3) [] = none := rfl
    have hc1 : cstr ['x', '\n'] = ['x', '\n'] := by decide
    have hs : slideLine pngopen ['x', '\n'] { linecount := 0, lines := [], img := none } =
        { linecount := 1, lines := [['x']], img := none } := by
      simp [slideLine]
    unfold load
    rw [hflen]
    simp only [loadLoop, hfg, hhead, ne_eq, not_true_eq_false, and_false, if_false]
    simp only [hfg2, hc1, hs, hfg3]
    simp

/-- C3, as stated, fails: the input `longComment` is a single comment line of
8193 bytes. Its only line starts with `#`, yet with an 8192-byte buffer `load`
returns a deck of one slide, made of the tail of the line that the second
`fgets` call reads. -/
theorem load_long_comment :
    (∀ l ∈ splitLines longComment, l.head? = some '#') ∧
      load 8192 (fun _ => none) longComment [] =
        some (.ok [{ linecount := 1, lines := [['x']], img := none }]) :=
  load_comment_longer_than_buffer 8189 (fun _ => none)

/-- C3, amended: on an input whose lines are all shorter than the read buffer,
`load` run on the empty deck dies with "No slides in file" if and only if every
line is blank or starts with `#`; on every other such input it returns with at
least one slide. -/
theorem load_no_slides_iff (size : Nat) (pngopen : List Char → Option Image)
    (fp : List Char) (hshort : ∀ l ∈ splitLines fp, l.length < size) :
    (load size pngopen fp [] = some (.error "nuff: No slides in file") ↔
        ∀ l ∈ splitLines fp, l = ['\n'] ∨ l.head? = some '#') ∧
      ((∃ l ∈ splitLines fp, l ≠ ['\n'] ∧ l.head? ≠ some '#') →
        ∃ d, load size pngopen fp [] = some (.ok d) ∧ 1 ≤ d.length) := by
  have hrun := loadLoop_eq_runLines size pngopen _ fp none [] (Nat.lt_succ_self _) hshort
  have hnil := runLines_eq_nil pngopen (splitLines fp) none []
  have hiff : runLines pngopen (splitLines fp) none [] = [] ↔
      ∀ l ∈ splitLines fp, l = ['\n'] ∨ l.head? = some '#' := by
    rw [hnil]
    constructor
    · rintro ⟨_, _, h⟩ l hl
      have := h l hl
      simp only [ne_eq, cstr_eq_newline fp l hl, head?_cstr l '#' (by decide)] at this
      by_cases hb : l = ['\n']
      · exact Or.inl hb
      · by_cases hc : l.head? = some '#'
        · exact Or.inr hc
        · exact absurd ⟨hb, hc⟩ this
    · intro h
      refine ⟨rfl, rfl, fun l hl => ?_⟩
      simp only [ne_eq, cstr_eq_newline fp l hl, head?_cstr l '#' (by decide)]
      rintro ⟨hb, hc⟩
      rcases h l hl with h | h
      · exact hb h
      · exact hc h
  constructor
  · unfold load
    rw [hrun, ← hiff]
    by_cases h0 : runLines pngopen (splitLines fp) none [] = []
    · simp [h0]
    · have : (runLines pngopen (splitLines fp) none []).length ≠ 0 :=
        fun h => h0 (List.length_eq_zero.mp h)
      simp [h0, this]
  · rintro ⟨l, hl, hb, hc⟩
    have h0 : runLines pngopen (splitLines fp) none [] ≠ [] := by
      rw [Ne, hiff]
      intro h
      rcases h l hl with h | h
      · exact hb h
      · exact hc h
    have h1 : (runLines pngopen (splitLines fp) none []).length ≠ 0 :=
      fun h => h0 (List.length_eq_zero.mp h)
    refine ⟨runLines pngopen (splitLines fp) none [], ?_, by omega⟩
    unfold load
    rw [hrun]
    simp [h1]

/-- Witness of the amended C3: a deck of comments and blank lines only is
fatal, and `"Hello\n\nWorld\n"` is not. -/
theorem load_no_slides_iff_witness :
    load 8192 (fun _ => none) "#only\n\n#comments\n".toList [] =
        some (.error "nuff: No slides in file") ∧
      ∃ d, load 8192 (fun _ => none) "Hello\n\nWorld\n".toList [] = some (.ok d) ∧
        1 ≤ d.length :=
  ⟨(load_no_slides_iff 8192 (fun _ => none) "#only\n\n#comments\n".toList
      (by decide)).1.mpr (by decide),
    (load_no_slides_iff 8192 (fun _ => none) "Hello\n\nWorld\n".toList
      (by decide)).2 ⟨"Hello\n".toList, by decide, by decide, by decide⟩⟩


/-! ## The output size of `pngprepare` -/

theorem min_ratio_of_lt (uw uh bw bh : Nat) (hbw : 1 ≤ bw) (hbh : 1 ≤ bh)
    (h : uh * bw ≤ uw * bh) :
    min ((uw : ℚ) / bw) ((uh : ℚ) / bh) = (uh : ℚ) / bh := by
  have hbw0 : (0 : ℚ) < bw := by exact_mod_cast hbw
  have hbh0 : (0 : ℚ) < bh := by exact_mod_cast hbh
  apply min_eq_right
  rw [div_le_div_iff₀ hbh0 hbw0]
  exact_mod_cast h

theorem min_ratio_of_le (uw uh bw bh : Nat) (hbw : 1 ≤ bw) (hbh : 1 ≤ bh)
    (h : uw * bh ≤ uh * bw) :
    min ((uw : ℚ) / bw) ((uh : ℚ) / bh) = (uw : ℚ) / bw := by
  have hbw0 : (0 : ℚ) < bw := by exact_mod_cast hbw
  have hbh0 : (0 : ℚ) < bh := by exact_mod_cast hbh
  apply min_eq_left
  rw [div_le_div_iff₀ hbw0 hbh0]
  exact_mod_cast h

theorem floor_scaled (a b c : Nat) :
    ⌊(a : ℚ) * ((b : ℚ) / c)⌋₊ = a * b / c := by
  rw [← mul_div_assoc, ← Nat.cast_mul, Nat.floor_div_eq_div]

theorem floor_same (a b : Nat) (ha : 1 ≤ a) : ⌊(a : ℚ) * ((b : ℚ) / a)⌋₊ = b := by
  have ha0 : (a : ℚ) ≠ 0 := by
    have : (0 : ℚ) < a := by exact_mod_cast ha
    exact ne_of_gt this
  rw [mul_div_cancel₀ _ ha0, Nat.floor_natCast]

/-- C4: for a native size `bw`, `bh` of at least 1 by 1 and a usable size
`uw`, `uh` (in particular one of at least 1 by 1), with products below
`2 ^ 32`, `pngprepare` computes an output size
`(w, h)` with `w ≤ uw`, `h ≤ uh`, one of them met exactly, and the other the
exactly proportional value rounded down (so within one pixel of it): the
native size scaled by `min (uw / bw) (uh / bh)` and rounded down. -/
theorem pngprepareSize_fits (uw uh bw bh : Nat)
    (hbw : 1 ≤ bw) (hbh : 1 ≤ bh)
    (h1 : bw * uh < 2 ^ 32) (h2 : bh * uw < 2 ^ 32) :
    ∃ w h, pngprepareSize uw uh bw bh = some (w, h) ∧ w ≤ uw ∧ h ≤ uh ∧
      (w = uw ∨ h = uh) ∧
      (uh * bw < uw * bh →
        h = uh ∧ w = bw * uh / bh ∧ w * bh ≤ bw * uh ∧ bw * uh < (w + 1) * bh) ∧
      (uw * bh ≤ uh * bw →
        w = uw ∧ h = bh * uw / bw ∧ h * bw ≤ bh * uw ∧ bh * uw < (h + 1) * bw) ∧
      w = ⌊(bw : ℚ) * min ((uw : ℚ) / bw) ((uh : ℚ) / bh)⌋₊ ∧
      h = ⌊(bh : ℚ) * min ((uw : ℚ) / bw) ((uh : ℚ) / bh)⌋₊ := by
  have e1 : (uw * bh) % UINT = uw * bh := Nat.mod_eq_of_lt (by rw [Nat.mul_comm]; exact h2)
  have e2 : (uh * bw) % UINT = uh * bw := Nat.mod_eq_of_lt (by rw [Nat.mul_comm]; exact h1)
  have e3 : (bw * uh) % UINT = bw * uh := Nat.mod_eq_of_lt h1
  have e4 : (bh * uw) % UINT = bh * uw := Nat.mod_eq_of_lt h2
  have hbh0 : bh ≠ 0 := by omega
  have hbw0 : bw ≠ 0 := by omega
  by_cases hc : uh * bw < uw * bh
  · have hdiv : bw * uh / bh * bh ≤ bw * uh := Nat.div_mul_le_self _ _
    have hlt : bw * uh < (bw * uh / bh + 1) * bh := by
      have := Nat.lt_mul_div_succ (bw * uh) (show 0 < bh by omega)
      rwa [Nat.mul_comm bh] at this
    have hw : bw * uh / bh ≤ uw := by
      apply Nat.div_le_of_le_mul
      rw [Nat.mul_comm bw uh, Nat.mul_comm bh uw]
      exact le_of_lt hc
    refine ⟨bw * uh / bh, uh, ?_, hw, le_refl _, Or.inr rfl, ?_, ?_, ?_, ?_⟩
    · simp [pngprepareSize, e1, e2, e3, hc, hbh0]
    · intro _; exact ⟨rfl, rfl, hdiv, hlt⟩
    · intro h; omega
    · rw [min_ratio_of_lt uw uh bw bh hbw hbh (le_of_lt hc), floor_scaled bw uh bh]
    · rw [min_ratio_of_lt uw uh bw bh hbw hbh (le_of_lt hc), floor_same bh uh hbh]
  · have hc2 : uw * bh ≤ uh * bw := by omega
    have hdiv : bh * uw / bw * bw ≤ bh * uw := Nat.div_mul_le_self _ _
    have hlt : bh * uw < (bh * uw / bw + 1) * bw := by
      have := Nat.lt_mul_div_succ (bh * uw) (show 0 < bw by omega)
      rwa [Nat.mul_comm bw] at this
    have hh : bh * uw / bw ≤ uh := by
      apply Nat.div_le_of_le_mul
      rw [Nat.mul_comm bh uw, Nat.mul_comm bw uh]
      exact hc2
    refine ⟨uw, bh * uw / bw, ?_, le_refl _, hh, Or.inl rfl, ?_, ?_, ?_, ?_⟩
    · simp [pngprepareSize, e1, e2, e4, hc, hbw0]
    · intro h; omega
    · intro _; exact ⟨rfl, rfl, hdiv, hlt⟩
    · rw [min_ratio_of_le uw uh bw bh hbw hbh hc2, floor_same bw uw hbw]
    · rw [min_ratio_of_le uw uh bw bh hbw hbh hc2, floor_scaled bh uw bw]

theorem pngprepareSize_pos (uw uh bw bh : Nat)
    (hbw : 1 ≤ bw) (hbh : 1 ≤ bh)
    (h1 : bw * uh < 2 ^ 32) (h2 : bh * uw < 2 ^ 32)
    (hw : bh ≤ bw * uh) (hh : bw ≤ bh * uw) (huw : 1 ≤ uw) (huh : 1 ≤ uh) :
    ∃ w h, pngprepareSize uw uh bw bh = some (w, h) ∧ 1 ≤ w ∧ 1 ≤ h := by
  have e1 : (uw * bh) % UINT = uw * bh := Nat.mod_eq_of_lt (by rw [Nat.mul_comm]; exact h2)
  have e2 : (uh * bw) % UINT = uh * bw := Nat.mod_eq_of_lt (by rw [Nat.mul_comm]; exact h1)
  have e3 : (bw * uh) % UINT = bw * uh := Nat.mod_eq_of_lt h1
  have e4 : (bh * uw) % UINT = bh * uw := Nat.mod_eq_of_lt h2
  have hbh0 : bh ≠ 0 := by omega
  have hbw0 : bw ≠ 0 := by omega
  by_cases hc : uh * bw < uw * bh
  · exact ⟨bw * uh / bh, uh, by simp [pngprepareSize, e1, e2, e3, hc, hbh0],
      Nat.div_pos hw (by omega), huh⟩
  · exact ⟨uw, bh * uw / bw, by simp [pngprepareSize, e1, e2, e4, hc, hbw0],
      huw, Nat.div_pos hh (by omega)⟩

/-- Witness of C4: a 640 by 480 image in a usable area of 768 by 432 is
shown at 576 by 432. -/
theorem pngprepareSize_fits_witness :
    ∃ w h, pngprepareSize 768 432 640 480 = some (w, h) ∧ w ≤ 768 ∧ h ≤ 432 ∧
      (w = 768 ∨ h = 432) ∧
      (432 * 640 < 768 * 480 →
        h = 432 ∧ w = 640 * 432 / 480 ∧ w * 480 ≤ 640 * 432 ∧ 640 * 432 < (w + 1) * 480) ∧
      (768 * 480 ≤ 432 * 640 →
        w = 768 ∧ h = 480 * 768 / 640 ∧ h * 640 ≤ 480 * 768 ∧ 480 * 768 < (h + 1) * 640) ∧
      w = ⌊((640 : Nat) : ℚ) * min (((768 : Nat) : ℚ) / (640 : Nat)) (((432 : Nat) : ℚ) / (480 : Nat))⌋₊ ∧
      h = ⌊((480 : Nat) : ℚ) * min (((768 : Nat) : ℚ) / (640 : Nat)) (((432 : Nat) : ℚ) / (480 : Nat))⌋₊ :=
  pngprepareSize_fits 768 432 640 480 (by decide) (by decide) (by decide) (by decide)

/-- C10, evaluated at its failing input: for a 1 by 1000 image and a usable
area of 100 by 100, `pngprepare` computes the output size 0 by 100, and
`pngscale` then divides by its width; for a 1000 by 1 image it computes the
height 0. -/
theorem pngprepareSize_zero :
    pngprepareSize 100 100 1 1000 = some (0, 100) ∧
      pngscale 1 1000 0 100 = none ∧
      pngprepare { w := 133, h := 133, uw := 100, uh := 100, depth := 24, ximage := true }
          { bufwidth := 1, bufheight := 1000, state := LOADED, ximg := none, decodes := true } =
        .error "division by zero" ∧
      pngprepareSize 100 100 1000 1 = some (100, 0) := by
  refine ⟨by decide, by decide, rfl, by decide⟩


/-! ## The text fitter -/

theorem shrink_spec (F : Fonts) (uw : Nat) (line : List Char) (j : Nat) :
    ∀ curw, (shrink F uw line j curw).1 ≤ j ∧
      ((shrink F uw line j curw).2 ≤ uw ∨ (shrink F uw line j curw).1 = 0) ∧
      (curw = F.getwidth j line →
        (shrink F uw line j curw).2 = F.getwidth (shrink F uw line j curw).1 line) ∧
      (curw ≤ uw → shrink F uw line j curw = (j, curw)) := by
  induction j with
  | zero => intro curw; simp [shrink]
  | succ j ih =>
    intro curw
    by_cases h : curw > uw
    · obtain ⟨h1, h2, h3, _⟩ := ih (F.getwidth j line)
      simp only [shrink, if_pos h]
      exact ⟨by omega, h2, fun _ => h3 rfl, fun h' => by omega⟩
    · simp only [shrink, if_neg h]
      exact ⟨le_refl _, Or.inl (by omega), fun h' => h', fun _ => trivial⟩

theorem fitWidth_index_le (F : Fonts) (uw : Nat) (lines : List (List Char)) :
    ∀ j width, (fitWidth F uw lines j width).1 ≤ j := by
  induction lines with
  | nil => intro j width; simp [fitWidth]
  | cons line rest ih =>
    intro j width
    simp only [fitWidth]
    exact le_trans (ih _ _) (shrink_spec F uw line j _).1

theorem fitWidth_fits (F : Fonts) (uw : Nat)
    (hmono : ∀ line j k, j ≤ k → k < NUMFONTSCALES → F.getwidth j line ≤ F.getwidth k line)
    (lines : List (List Char)) :
    ∀ j width, j < NUMFONTSCALES → (∀ line ∈ lines, F.getwidth 0 line ≤ uw) →
      ∀ line ∈ lines, F.getwidth (fitWidth F uw lines j width).1 line ≤ uw := by
  induction lines with
  | nil => intro j width _ _ line h; simp at h
  | cons l rest ih =>
    intro j width hj hbase line hline
    obtain ⟨h1, h2, h3, _⟩ := shrink_spec F uw l j (F.getwidth j l)
    simp only [fitWidth]
    have hr : (shrink F uw l j (F.getwidth j l)).1 < NUMFONTSCALES := lt_of_le_of_lt h1 hj
    rcases List.mem_cons.mp hline with rfl | hrest
    · have hfit : F.getwidth (shrink F uw line j (F.getwidth j line)).1 line ≤ uw := by
        rcases h2 with h2 | h2
        · rw [← h3 rfl]; exact h2
        · rw [h2]; exact hbase line (by simp)
      exact le_trans (hmono line _ _ (fitWidth_index_le F uw rest _ _) hr) hfit
    · exact ih _ _ hr (fun x hx => hbase x (List.mem_cons_of_mem _ hx)) line hrest

theorem fitHeightIndex_lt (F : Fonts) (xw : XWindow) (s : Slide) :
    fitHeightIndex F xw s < NUMFONTSCALES := by
  unfold fitHeightIndex LIMIT NUMFONTSCALES
  split
  · simp
  · split
    · simp
    · omega

/-- C6: with a font ladder whose measured widths do not decrease with the
scale index, and a usable width that holds every line of the slide at scale
index 0, the scale index that `getfontsize` ends with is below
`NUMFONTSCALES` and every line of the slide, so the widest one too, measures
at most the usable width at it. -/
theorem getfontsize_lines_fit (F : Fonts) (xw : XWindow) (s : Slide)
    (hmono : ∀ line j k, j ≤ k → k < NUMFONTSCALES → F.getwidth j line ≤ F.getwidth k line)
    (hbase : ∀ line ∈ s.lines.take s.linecount, F.getwidth 0 line ≤ xw.uw) :
    (getfontsize F xw s).1 < NUMFONTSCALES ∧
      ∀ line ∈ s.lines.take s.linecount, F.getwidth (getfontsize F xw s).1 line ≤ xw.uw := by
  constructor
  · exact lt_of_le_of_lt (fitWidth_index_le F xw.uw _ _ _) (fitHeightIndex_lt F xw s)
  · exact fitWidth_fits F xw.uw hmono _ _ _ (fitHeightIndex_lt F xw s) hbase

/-- Witness of C6: the two lines `ab` and `abcde` on the ladder of unit
character widths, in a usable width of 84. -/
theorem getfontsize_lines_fit_witness :
    (getfontsize ladder xwSmall slideTwoLines).1 < NUMFONTSCALES ∧
      ∀ line ∈ slideTwoLines.lines.take slideTwoLines.linecount,
        ladder.getwidth (getfontsize ladder xwSmall slideTwoLines).1 line ≤ xwSmall.uw :=
  getfontsize_lines_fit ladder xwSmall slideTwoLines
    (fun line j k hjk _ => Nat.mul_le_mul_right line.length (Nat.succ_le_succ hjk))
    (by decide)


theorem fitWidth_measured (F : Fonts) (uw : Nat) (all : List (List Char))
    (lines : List (List Char)) :
    ∀ j width, (∀ l ∈ lines, l ∈ all) →
      ((∃ line ∈ all, width = F.getwidth j line) ∧ (width ≤ uw ∨ j = 0)) →
      (∃ line ∈ all, (fitWidth F uw lines j width).2 =
          F.getwidth (fitWidth F uw lines j width).1 line) ∧
        ((fitWidth F uw lines j width).2 ≤ uw ∨ (fitWidth F uw lines j width).1 = 0) := by
  induction lines with
  | nil => intro j width _ h; simpa [fitWidth] using h
  | cons l rest ih =>
    intro j width hsub hinv
    obtain ⟨h1, h2, h3, h4⟩ := shrink_spec F uw l j (F.getwidth j l)
    have hrest : ∀ x ∈ rest, x ∈ all := fun x hx => hsub x (List.mem_cons_of_mem _ hx)
    simp only [fitWidth]
    by_cases hmax : F.getwidth j l ≥ width
    · simp only [hmax, decide_True, if_true]
      exact ih _ _ hrest ⟨⟨l, hsub l (by simp), h3 rfl⟩, h2⟩
    · simp only [hmax, decide_False, Bool.false_eq_true, if_false]
      have hsame : (shrink F uw l j (F.getwidth j l)).1 = j := by
        rcases hinv.2 with hw | hj
        · rw [h4 (by omega)]
        · omega
      rw [hsame]
      exact ih _ _ hrest hinv

theorem fitWidth_le_max (F : Fonts) (uw : Nat) (lines : List (List Char)) :
    ∀ j width, (fitWidth F uw lines j width).2 ≤
      max width ((shrunkWidths F uw lines j).foldr max 0) := by
  induction lines with
  | nil => intro j width; simp [fitWidth, shrunkWidths]
  | cons l rest ih =>
    intro j width
    simp only [fitWidth, shrunkWidths, List.foldr_cons]
    refine le_trans (ih _ _) ?_
    by_cases hmax : F.getwidth j l ≥ width
    · simp only [hmax, decide_True, if_true]
      omega
    · simp only [hmax, decide_False, Bool.false_eq_true, if_false]
      omega

theorem fitWidth_no_shrink (F : Fonts) (uw : Nat) (j : Nat) (lines : List (List Char)) :
    ∀ width, (∀ line ∈ lines, F.getwidth j line ≤ uw) →
      fitWidth F uw lines j width =
        (j, max width ((shrunkWidths F uw lines j).foldr max 0)) := by
  induction lines with
  | nil => intro width _; simp [fitWidth, shrunkWidths]
  | cons l rest ih =>
    intro width hfit
    have h4 := (shrink_spec F uw l j (F.getwidth j l)).2.2.2 (hfit l (by simp))
    have hrest : ∀ x ∈ rest, F.getwidth j x ≤ uw :=
      fun x hx => hfit x (List.mem_cons_of_mem _ hx)
    simp only [fitWidth, shrunkWidths, List.foldr_cons, h4]
    rw [ih _ hrest]
    by_cases hmax : F.getwidth j l ≥ width
    · simp only [hmax, decide_True, if_true]
      congr 1
      omega
    · simp only [hmax, decide_False, Bool.false_eq_true, if_false]
      congr 1
      omega

/-- C7, as stated, fails: on the ladder of unit character widths and a usable
width of 84, the line `ab` measures 84 at the top scale and is not shrunk,
the line `abcde` is shrunk to 80; `getfontsize` reports the width 80, and the
largest width left by the shrink loops is 84. -/
theorem getfontsize_width_not_max :
    (getfontsize ladder xwSmall slideTwoLines).2.1 = 80 ∧
      shrunkWidths ladder xwSmall.uw (slideTwoLines.lines.take slideTwoLines.linecount)
        (fitHeightIndex ladder xwSmall slideTwoLines) = [84, 80] ∧
      (getfontsize ladder xwSmall slideTwoLines).2.1 ≠
        (shrunkWidths ladder xwSmall.uw (slideTwoLines.lines.take slideTwoLines.linecount)
          (fitHeightIndex ladder xwSmall slideTwoLines)).foldr max 0 := by
  refine ⟨by decide, by decide, by decide⟩

theorem fitWidth_append (F : Fonts) (uw : Nat) (a b : List (List Char)) :
    ∀ j width, fitWidth F uw (a ++ b) j width =
      fitWidth F uw b (fitWidth F uw a j width).1 (fitWidth F uw a j width).2 := by
  induction a with
  | nil => intro j width; rfl
  | cons l a ih =>
    intro j width
    rw [List.cons_append]
    simp only [fitWidth]
    exact ih _ _

theorem newmax_cons (F : Fonts) (uw j width : Nat) (a : List Char) (pre : List (List Char))
    (line : List Char) :
    newmax F uw j width (a :: pre) line =
      newmax F uw (shrink F uw a j (F.getwidth j a)).1
        (if decide (F.getwidth j a ≥ width) then (shrink F uw a j (F.getwidth j a)).2
          else width) pre line := by
  unfold newmax
  simp only [fitWidth]

theorem fitWidth_cons_not_newmax (F : Fonts) (uw j width : Nat) (l : List Char)
    (rest : List (List Char)) (hinv : width ≤ uw ∨ j = 0)
    (hnew : newmax F uw j width [] l = false) :
    fitWidth F uw (l :: rest) j width = fitWidth F uw rest j width := by
  have hlt : ¬ F.getwidth j l ≥ width := by
    simpa [newmax, fitWidth] using hnew
  have hsame : shrink F uw l j (F.getwidth j l) = (j, F.getwidth j l) := by
    rcases hinv with hw | hj
    · exact (shrink_spec F uw l j (F.getwidth j l)).2.2.2 (by omega)
    · subst hj; rfl
  simp only [fitWidth, hsame, hlt, decide_False, Bool.false_eq_true, if_false]

theorem fitWidth_no_newmax (F : Fonts) (uw : Nat) (post : List (List Char)) :
    ∀ j width, (width ≤ uw ∨ j = 0) →
      (∀ post1 l post2, post = post1 ++ l :: post2 → newmax F uw j width post1 l = false) →
      fitWidth F uw post j width = (j, width) := by
  induction post with
  | nil => intro j width _ _; rfl
  | cons l post ih =>
    intro j width hinv hno
    have h0 : newmax F uw j width [] l = false := hno [] l post rfl
    rw [fitWidth_cons_not_newmax F uw j width l post hinv h0]
    apply ih j width hinv
    intro post1 l' post2 hp
    have h1 := hno (l :: post1) l' post2 (by rw [hp]; rfl)
    unfold newmax at h1 ⊢
    rwa [fitWidth_cons_not_newmax F uw j width l post1 hinv h0] at h1

theorem fitWidth_last_newmax (F : Fonts) (uw j width : Nat) (pre post : List (List Char))
    (line : List Char)
    (hnew : newmax F uw j width pre line = true)
    (hlast : ∀ post1 l post2, post = post1 ++ l :: post2 →
      newmax F uw j width (pre ++ line :: post1) l = false) :
    (fitWidth F uw (pre ++ line :: post) j width).2 =
      F.getwidth (fitWidth F uw (pre ++ line :: post) j width).1 line := by
  have hge : F.getwidth (fitWidth F uw pre j width).1 line ≥ (fitWidth F uw pre j width).2 := by
    simpa [newmax] using hnew
  obtain ⟨_, h2, h3, _⟩ := shrink_spec F uw line (fitWidth F uw pre j width).1
    (F.getwidth (fitWidth F uw pre j width).1 line)
  have hstep : ∀ X, fitWidth F uw (pre ++ line :: X) j width =
      fitWidth F uw X
        (shrink F uw line (fitWidth F uw pre j width).1
          (F.getwidth (fitWidth F uw pre j width).1 line)).1
        (shrink F uw line (fitWidth F uw pre j width).1
          (F.getwidth (fitWidth F uw pre j width).1 line)).2 := by
    intro X
    rw [fitWidth_append]
    simp only [fitWidth, hge, decide_True, if_true]
  have hrest := fitWidth_no_newmax F uw post _ _ h2 (fun post1 l post2 hp => by
    have := hlast post1 l post2 hp
    unfold newmax at this ⊢
    rwa [hstep post1] at this)
  rw [hstep post, hrest]
  exact h3 rfl

theorem exists_last_newmax (F : Fonts) (uw : Nat) (lines : List (List Char)) :
    ∀ j width,
      (∃ pre line post, lines = pre ++ line :: post ∧ newmax F uw j width pre line = true ∧
        ∀ post1 l post2, post = post1 ++ l :: post2 →
          newmax F uw j width (pre ++ line :: post1) l = false) ∨
      (∀ post1 l post2, lines = post1 ++ l :: post2 → newmax F uw j width post1 l = false) := by
  induction lines with
  | nil =>
    intro j width
    right
    intro post1 l post2 h
    cases post1 <;> cases h
  | cons a rest ih =>
    intro j width
    rcases ih (shrink F uw a j (F.getwidth j a)).1
        (if decide (F.getwidth j a ≥ width) then (shrink F uw a j (F.getwidth j a)).2
          else width) with ⟨pre, line, post, h1, h2, h3⟩ | hnone
    · left
      refine ⟨a :: pre, line, post, by rw [h1]; rfl, by rw [newmax_cons]; exact h2, ?_⟩
      intro post1 l post2 hp
      rw [List.cons_append, newmax_cons]
      exact h3 post1 l post2 hp
    · by_cases ha : newmax F uw j width [] a = true
      · left
        refine ⟨[], a, rest, rfl, ha, ?_⟩
        intro post1 l post2 hp
        rw [List.nil_append, newmax_cons]
        exact hnone post1 l post2 hp
      · right
        intro post1 l post2 hp
        cases post1 with
        | nil =>
          rw [List.nil_append] at hp
          injection hp with hal _
          subst hal
          simpa using ha
        | cons b post1 =>
          rw [List.cons_append] at hp
          injection hp with hab hrest
          subst hab
          rw [newmax_cons]
          exact hnone post1 l post2 hrest

/-- C7, amended: the width that `getfontsize` reports is the width, measured
at the scale index it ends with, of the last line of the slide whose first
measurement was at least the running `*width` (the last line with `newmax`
set); a slide with lines has such a line, and a slide without lines gets the
width 0. This width is at most the largest of the widths `curw` left by the
shrink loops of the lines, and equal to it when every line measured at the
scale index fitted to the height is within the usable width, so that no line
is shrunk. -/
theorem getfontsize_width (F : Fonts) (xw : XWindow) (s : Slide) :
    (∀ pre line post, s.lines.take s.linecount = pre ++ line :: post →
        newmax F xw.uw (fitHeightIndex F xw s) 0 pre line = true →
        (∀ post1 l post2, post = post1 ++ l :: post2 →
          newmax F xw.uw (fitHeightIndex F xw s) 0 (pre ++ line :: post1) l = false) →
        (getfontsize F xw s).2.1 = F.getwidth (getfontsize F xw s).1 line) ∧
      (s.lines.take s.linecount ≠ [] →
        ∃ pre line post, s.lines.take s.linecount = pre ++ line :: post ∧
          newmax F xw.uw (fitHeightIndex F xw s) 0 pre line = true ∧
          ∀ post1 l post2, post = post1 ++ l :: post2 →
            newmax F xw.uw (fitHeightIndex F xw s) 0 (pre ++ line :: post1) l = false) ∧
      (s.lines.take s.linecount = [] → (getfontsize F xw s).2.1 = 0) ∧
      (getfontsize F xw s).2.1 ≤
        (shrunkWidths F xw.uw (s.lines.take s.linecount)
          (fitHeightIndex F xw s)).foldr max 0 ∧
      ((∀ line ∈ s.lines.take s.linecount,
          F.getwidth (fitHeightIndex F xw s) line ≤ xw.uw) →
        (getfontsize F xw s).2.1 =
          (shrunkWidths F xw.uw (s.lines.take s.linecount)
            (fitHeightIndex F xw s)).foldr max 0) := by
  refine ⟨?_, ?_, ?_, ?_, ?_⟩
  · intro pre line post hl hnew hlast
    have h := fitWidth_last_newmax F xw.uw (fitHeightIndex F xw s) 0 pre post line hnew hlast
    simp only [getfontsize, hl]
    exact h
  · intro hne
    rcases exists_last_newmax F xw.uw (s.lines.take s.linecount) (fitHeightIndex F xw s) 0
      with h | h
    · exact h
    · cases hl : s.lines.take s.linecount with
      | nil => exact absurd hl hne
      | cons a rest =>
        have := h [] a rest hl
        simp [newmax, fitWidth] at this
  · intro hl
    simp [getfontsize, hl, fitWidth]
  · have h := fitWidth_le_max F xw.uw (s.lines.take s.linecount) (fitHeightIndex F xw s) 0
    simpa [getfontsize] using h
  · intro hfit
    have h := fitWidth_no_shrink F xw.uw (fitHeightIndex F xw s) (s.lines.take s.linecount)
      0 hfit
    simp [getfontsize, h]

/-- Witness of the amended C7: the slide of the lines `ab` and `abcde`. In a
usable width of 84 the last line with `newmax` set is `abcde`, and the
reported width is its width 80 at the final scale index 15; in a usable width
of 768 no line is shrunk and the reported width is the largest of the widths
left by the shrink loops. -/
theorem getfontsize_width_witness :
    (getfontsize ladder xwSmall slideTwoLines).2.1 =
        ladder.getwidth (getfontsize ladder xwSmall slideTwoLines).1 "abcde".toList ∧
      (getfontsize ladder xwWide slideTwoLines).2.1 =
        (shrunkWidths ladder xwWide.uw (slideTwoLines.lines.take slideTwoLines.linecount)
          (fitHeightIndex ladder xwWide slideTwoLines)).foldr max 0 :=
  ⟨(getfontsize_width ladder xwSmall slideTwoLines).1 ["ab".toList] "abcde".toList []
      (by decide) (by decide) (fun post1 l post2 h => by cases post1 <;> cases h),
    (getfontsize_width ladder xwWide slideTwoLines).2.2.2.2 (by decide)⟩

/-! ## Image state flags -/

theorem and_and_of_and_eq_zero (x c m : Nat) (h : c &&& m = 0) : (x &&& c) &&& m = 0 := by
  rw [Nat.and_assoc, h, Nat.and_zero]

theorem and_and_of_and_eq (x c m : Nat) (h : c &&& m = m) : (x &&& c) &&& m = x &&& m := by
  rw [Nat.and_assoc, h]

theorem or_and_of_and_eq_zero (x a m : Nat) (h : a &&& m = 0) : (x ||| a) &&& m = x &&& m := by
  rw [Nat.and_distrib_right, h, Nat.or_zero]

theorem or_two_pow_and_ne_zero (x k : Nat) : (x ||| 2 ^ k) &&& 2 ^ k ≠ 0 := by
  intro h
  have h1 : ((x ||| 2 ^ k) &&& 2 ^ k).testBit k = true := by
    simp [Nat.testBit_two_pow_self]
  rw [h] at h1
  simp at h1

theorem or_two_pow_of_and_ne_zero (x k : Nat) (h : x &&& 2 ^ k ≠ 0) : x ||| 2 ^ k = x := by
  obtain ⟨i, hi⟩ := Nat.ne_zero_implies_bit_true h
  rw [Nat.testBit_and, Nat.testBit_two_pow] at hi
  simp only [Bool.and_eq_true, decide_eq_true_eq] at hi
  obtain ⟨hx, rfl⟩ := hi
  apply Nat.eq_of_testBit_eq
  intro j
  rw [Nat.testBit_or, Nat.testBit_two_pow]
  by_cases hj : k = j
  · subst hj; simp [hx]
  · simp [hj]

theorem or_LOADED_of_loaded (x : Nat) (h : x &&& LOADED ≠ 0) : x ||| LOADED = x :=
  or_two_pow_of_and_ne_zero x 0 h

theorem or_SCALED_of_scaled (x : Nat) (h : x &&& SCALED ≠ 0) : x ||| SCALED = x :=
  or_two_pow_of_and_ne_zero x 1 h

/-! ## The slides after an update of one image -/

theorem updImg_length (f : Image → Image) (slides : List Slide) :
    ∀ i, (updImg f slides i).length = slides.length := by
  induction slides with
  | nil => intro i; rfl
  | cons s ss ih =>
    intro i
    cases i with
    | zero => rfl
    | succ i => simp [updImg, ih]

theorem updImg_getElem? (f : Image → Image) (slides : List Slide) :
    ∀ i j, (updImg f slides i)[j]? =
      if j = i then (slides[j]?).map (fun s => { s with img := s.img.map f })
      else slides[j]? := by
  induction slides with
  | nil => intro i j; simp [updImg]
  | cons s ss ih =>
    intro i j
    cases i with
    | zero =>
      cases j with
      | zero => simp [updImg]
      | succ j => simp [updImg]
    | succ i =>
      cases j with
      | zero => simp [updImg]
      | succ j => simp [updImg, ih]

theorem img_updImg (f : Image → Image) (g : State) (slides : List Slide) (i j : Nat)
    (h : g.slides = updImg f slides i) :
    g.img j = if j = i then ((slides[j]?).bind (fun s => s.img)).map f
      else (slides[j]?).bind (fun s => s.img) := by
  unfold State.img
  rw [h, updImg_getElem?]
  by_cases hj : j = i
  · simp only [hj, if_true]
    cases slides[i]? with
    | none => rfl
    | some s => rfl
  · simp only [hj, if_false]

theorem updImg_same (slides : List Slide) :
    ∀ i s im, slides[i]? = some s → s.img = some im → updImg (fun _ => im) slides i = slides := by
  induction slides with
  | nil => intro i s im h; simp at h
  | cons t ts ih =>
    intro i s im h him
    cases i with
    | zero =>
      simp at h
      subst h
      simp only [updImg, him, Option.map_some']
      rw [← him]
    | succ i =>
      simp at h
      simp [updImg, ih i s im h him]


/-! ## What `xdraw` and the prefetch leave unchanged -/

theorem xdraw_frame (F : Fonts) (g g' : State) (h : xdraw F g = .ok g') :
    g'.idx = g.idx ∧ g'.xw = g.xw ∧ g'.blanked = g.blanked ∧
      g'.slides.length = g.slides.length ∧
      ∀ j, j ≠ g.idx.toNat → g'.img j = g.img j := by
  unfold xdraw at h
  split at h
  · cases h
  · split at h
    · cases h
    · dsimp only at h
      split at h
      · injection h with h
        subst h
        exact ⟨rfl, rfl, rfl, rfl, fun _ _ => rfl⟩
      · split at h
        · injection h with h
          subst h
          exact ⟨rfl, rfl, rfl, rfl, fun _ _ => rfl⟩
        · split at h
          · cases h
          · injection h with h
            subst h
            refine ⟨rfl, rfl, rfl, updImg_length _ _ _, fun j hj => ?_⟩
            rw [img_updImg _ _ g.slides g.idx.toNat j rfl, if_neg hj]
            rfl

theorem pngread_state (im : Image) :
    (pngread im).2 = im ∨ (pngread im).2 = { im with state := im.state ||| LOADED } := by
  unfold pngread
  split
  · exact Or.inl rfl
  · split
    · exact Or.inr rfl
    · exact Or.inl rfl

theorem prefetch_frame (i : Nat) (g g' : State) (h : prefetch i g = .ok g') :
    g'.idx = g.idx ∧ g'.slides.length = g.slides.length ∧
      ∀ j im, g.img j = some im →
        ∃ im', g'.img j = some im' ∧
          (im' = im ∨ im' = { im with state := im.state ||| LOADED }) := by
  unfold prefetch at h
  split at h
  · cases h
  · rename_i s hs
    split at h
    · injection h with h
      subst h
      exact ⟨rfl, rfl, fun j im hj => ⟨im, hj, Or.inl rfl⟩⟩
    · rename_i im0 him0
      split at h
      · cases h
      · injection h with h
        subst h
        refine ⟨rfl, updImg_length _ _ _, fun j im hj => ?_⟩
        rw [img_updImg _ _ g.slides i j rfl]
        by_cases hji : j = i
        · subst hji
          have him : im = im0 := by
            have : g.img j = some im0 := by simp [State.img, hs, him0]
            rw [this] at hj
            exact (Option.some.inj hj).symm
          subst him
          refine ⟨(pngread im).2, by simp [hs, him0], pngread_state im⟩
        · rw [if_neg hji]
          exact ⟨im, hj, Or.inl rfl⟩

theorem prefetch_if_frame (c : Prop) [Decidable c] (i : Nat) (g g' : State)
    (h : (if c then prefetch i g else .ok g) = .ok g') :
    g'.idx = g.idx ∧ g'.slides.length = g.slides.length ∧
      ∀ j im, g.img j = some im →
        ∃ im', g'.img j = some im' ∧
          (im' = im ∨ im' = { im with state := im.state ||| LOADED }) := by
  by_cases hc : c
  · rw [if_pos hc] at h
    exact prefetch_frame i g g' h
  · rw [if_neg hc] at h
    injection h with h
    subst h
    exact ⟨rfl, rfl, fun j im hj => ⟨im, hj, Or.inl rfl⟩⟩

theorem LIMIT_range (x n : Int) (hn : 1 ≤ n) : 0 ≤ LIMIT x 0 (n - 1) ∧ LIMIT x 0 (n - 1) < n := by
  unfold LIMIT
  split
  · omega
  · split <;> omega

theorem LIMIT_clamp (x n : Int) (hn : 1 ≤ n) : LIMIT x 0 (n - 1) = max 0 (min x (n - 1)) := by
  unfold LIMIT
  split
  · omega
  · split <;> omega


/-! ## Navigation -/

theorem toNat_ne_of_ne (a b : Int) (ha : 0 ≤ a) (hb : 0 ≤ b) (h : a ≠ b) :
    a.toNat ≠ b.toNat := by
  intro e
  apply h
  rw [← Int.toNat_of_nonneg ha, ← Int.toNat_of_nonneg hb, e]

/-- C5, as stated, fails: in the deck `deck3` (text, image, text), blanked at
its first slide and then advanced to the image slide, the image is not
decoded (`xdraw` returns early when blanked). The next `advance(+1)` leaves
the image slide, and its prefetch of slide `idx - 1` decodes that image: its
`LOADED` flag is clear before the call and set when it returns. -/
theorem advance_sets_loaded :
    ∃ g1 g2 g3, blank ladder deck3 = .ok g1 ∧ advance ladder 1 g1 = .ok g2 ∧
      advance ladder 1 g2 = .ok g3 ∧ g2.idx = 1 ∧ g3.idx = 2 ∧
      (g2.img 1).map (fun im => im.state &&& LOADED) = some 0 ∧
      (g3.img 1).map (fun im => im.state &&& LOADED) = some LOADED :=
  ⟨_, _, _, rfl, rfl, rfl, rfl, rfl, rfl, rfl⟩

/-- C5, amended: in a deck of at least one slide with `idx` inside it,
`advance(delta)` (with `idx + delta` in the range of `int`) changes nothing at
all when `clamp(idx + delta, 0, slidecount - 1)` is `idx`; and when it
returns, `idx` is that clamped value, inside the deck, and, if that differs
from the old `idx`, the image of the slide left has `SCALED` and `DRAWN`
clear and its `LOADED` flag either as it was or set (by the prefetch of the
neighbours of the new slide), never cleared. -/
theorem advance_spec (F : Fonts) (arg : Int) (g : State)
    (hcount : 1 ≤ g.slidecount) (hidx : 0 ≤ g.idx ∧ g.idx < g.slidecount)
    (hov : -2147483648 ≤ g.idx + arg ∧ g.idx + arg ≤ 2147483647) :
    (max 0 (min (g.idx + arg) (g.slidecount - 1)) = g.idx → advance F arg g = .ok g) ∧
      ∀ g', advance F arg g = .ok g' →
        g'.idx = max 0 (min (g.idx + arg) (g.slidecount - 1)) ∧
        g'.slidecount = g.slidecount ∧ 0 ≤ g'.idx ∧ g'.idx < g'.slidecount ∧
        (g'.idx ≠ g.idx → ∀ im, g.img g.idx.toNat = some im →
          ∃ im', g'.img g.idx.toNat = some im' ∧
            im'.state &&& SCALED = 0 ∧ im'.state &&& DRAWN = 0 ∧
            (im'.state &&& LOADED = im.state &&& LOADED ∨
              im'.state &&& LOADED = LOADED)) := by
  have hov' : ¬ (g.idx + arg < -2147483648 ∨ 2147483647 < g.idx + arg) := by omega
  have hclamp := LIMIT_clamp (g.idx + arg) g.slidecount hcount
  have hrange := LIMIT_range (g.idx + arg) g.slidecount hcount
  constructor
  · intro h
    rw [← hclamp] at h
    unfold advance
    rw [if_neg hov']
    simp [h]
  · intro g' h
    rw [← hclamp]
    unfold advance at h
    rw [if_neg hov'] at h
    dsimp only at h
    by_cases hnew : LIMIT (g.idx + arg) 0 (g.slidecount - 1) = g.idx
    · rw [if_neg (not_not.mpr hnew)] at h
      injection h with h
      subst h
      exact ⟨hnew.symm, rfl, hidx.1, hidx.2, fun hne => absurd rfl hne⟩
    · rw [if_pos hnew] at h
      cases hx : xdraw F { g with
          slides := updImg (fun im => { im with state := im.state &&& bitnot (DRAWN ||| SCALED) })
            g.slides g.idx.toNat,
          idx := LIMIT (g.idx + arg) 0 (g.slidecount - 1) } with
      | error e => rw [hx] at h; cases h
      | ok g2 =>
        rw [hx] at h
        dsimp only at h
        obtain ⟨x1, _, _, x4, x5⟩ := xdraw_frame F _ g2 hx
        dsimp only at x1 x4 x5
        rw [updImg_length] at x4
        cases hp : (if g2.slidecount > g2.idx + 1 then prefetch (g2.idx + 1).toNat g2
            else .ok g2) with
        | error e => rw [hp] at h; cases h
        | ok g3 =>
          rw [hp] at h
          dsimp only at h
          obtain ⟨p1, p2, p3⟩ := prefetch_if_frame _ _ g2 g3 hp
          obtain ⟨q1, q2, q3⟩ := prefetch_if_frame _ _ g3 g' h
          have hidx' : g'.idx = LIMIT (g.idx + arg) 0 (g.slidecount - 1) := by
            rw [q1, p1, x1]
          have hlen : g'.slidecount = g.slidecount := by
            unfold State.slidecount
            rw [q2, p2, x4]
          refine ⟨hidx', hlen, by rw [hidx']; exact hrange.1,
            by rw [hidx', hlen]; exact hrange.2, fun _ im him => ?_⟩
          have hne : g.idx.toNat ≠ (LIMIT (g.idx + arg) 0 (g.slidecount - 1)).toNat :=
            toNat_ne_of_ne _ _ hidx.1 hrange.1 (fun e => hnew e.symm)
          have h2 : g2.img g.idx.toNat =
              some { im with state := im.state &&& bitnot (DRAWN ||| SCALED) } := by
            rw [x5 _ hne, img_updImg _ _ g.slides g.idx.toNat g.idx.toNat rfl, if_pos rfl]
            have him' : (g.slides[g.idx.toNat]?).bind (fun s => s.img) = some im := him
            rw [him']
            rfl
          obtain ⟨im3, h3, h3'⟩ := p3 _ _ h2
          obtain ⟨im4, h4, h4'⟩ := q3 _ _ h3
          have hstate : im4.state = im.state &&& bitnot (DRAWN ||| SCALED) ∨
              im4.state = (im.state &&& bitnot (DRAWN ||| SCALED)) ||| LOADED := by
            rcases h3' with rfl | rfl
            · rcases h4' with rfl | rfl
              · exact Or.inl rfl
              · exact Or.inr rfl
            · rcases h4' with rfl | rfl
              · exact Or.inr rfl
              · right
                show ((im.state &&& bitnot (DRAWN ||| SCALED)) ||| LOADED) ||| LOADED = _
                rw [Nat.or_assoc, Nat.or_self]
          refine ⟨im4, h4, ?_⟩
          rcases hstate with hs | hs
          · rw [hs]
            exact ⟨and_and_of_and_eq_zero _ _ _ (by decide),
              and_and_of_and_eq_zero _ _ _ (by decide),
              Or.inl (and_and_of_and_eq _ _ _ (by decide))⟩
          · rw [hs]
            refine ⟨?_, ?_, Or.inr ?_⟩
            · rw [or_and_of_and_eq_zero _ _ _ (by decide)]
              exact and_and_of_and_eq_zero _ _ _ (by decide)
            · rw [or_and_of_and_eq_zero _ _ _ (by decide)]
              exact and_and_of_and_eq_zero _ _ _ (by decide)
            · simp [LOADED]

/-- Witness of the amended C5: `advance(-1)` at the first slide of `deck3`
changes nothing, and `advance(+1)` there returns with `idx = 1`. -/
theorem advance_spec_witness :
    advance ladder (-1) deck3 = .ok deck3 ∧
      ∃ g', advance ladder 1 deck3 = .ok g' ∧ g'.idx = 1 :=
  ⟨(advance_spec ladder (-1) deck3 (by decide) (by decide) (by decide)).1 (by decide),
    ⟨_, rfl, ((advance_spec ladder 1 deck3 (by decide) (by decide) (by decide)).2 _ rfl).1⟩⟩


/-! ## Redraw of an image slide -/

theorem pngread_ok (im : Image) (hdec : im.state &&& LOADED ≠ 0 ∨ im.decodes = true) :
    (if im.state &&& LOADED = 0 then pngread im else (1, im)) =
      (1, { im with state := im.state ||| LOADED }) := by
  by_cases h : im.state &&& LOADED = 0
  · have hd : im.decodes = true := by
      rcases hdec with h' | h'
      · exact absurd h h'
      · exact h'
    simp [pngread, h, hd]
  · rw [if_neg h, or_LOADED_of_loaded _ h]

theorem pngprepare_ok (xw : XWindow) (im : Image) (w h : Nat)
    (hdepth : 24 ≤ xw.depth) (hx : xw.ximage = true)
    (hsize : pngprepareSize xw.uw xw.uh im.bufwidth im.bufheight = some (w, h))
    (hw : w ≠ 0) :
    pngprepare xw im =
      .ok (1, { im with ximg := some (w, h), state := im.state ||| SCALED }) := by
  have hd : ¬ xw.depth < 24 := by omega
  simp [pngprepare, hsize, hd, hx, pngscale, hw]

theorem xdrawImage_ok (xw : XWindow) (name : Option (List Char)) (im : Image) (w h : Nat)
    (hdec : im.state &&& LOADED ≠ 0 ∨ im.decodes = true)
    (hdepth : 24 ≤ xw.depth) (hx : xw.ximage = true)
    (hsize : pngprepareSize xw.uw xw.uh im.bufwidth im.bufheight = some (w, h))
    (hw : w ≠ 0) :
    ∃ im', xdrawImage xw name im =
        .ok (im', if im.state &&& DRAWN = 0 then pngdraw im' else []) ∧
      im'.state = im.state ||| LOADED ||| SCALED ∧
      (im.state &&& SCALED = 0 → im'.ximg = some (w, h)) := by
  have hS : (im.state ||| LOADED) &&& SCALED = im.state &&& SCALED :=
    or_and_of_and_eq_zero _ _ _ (by decide)
  have hD : (im.state ||| LOADED) &&& DRAWN = im.state &&& DRAWN :=
    or_and_of_and_eq_zero _ _ _ (by decide)
  have hD2 : (im.state ||| LOADED ||| SCALED) &&& DRAWN = im.state &&& DRAWN := by
    rw [or_and_of_and_eq_zero _ _ _ (by decide), hD]
  unfold xdrawImage
  rw [pngread_ok im hdec]
  simp only [one_ne_zero, if_false]
  by_cases hs : im.state &&& SCALED = 0
  · have hs' : (im.state ||| LOADED) &&& SCALED = 0 := by rw [hS, hs]
    rw [if_pos hs', pngprepare_ok xw { im with state := im.state ||| LOADED } w h hdepth hx
      hsize hw]
    refine ⟨{ im with ximg := some (w, h), state := im.state ||| LOADED ||| SCALED }, ?_, rfl,
      fun _ => rfl⟩
    simp only [one_ne_zero, if_false, hD2]
    split <;> rfl
  · have hs' : ¬ (im.state ||| LOADED) &&& SCALED = 0 := by rw [hS]; exact hs
    rw [if_neg hs']
    refine ⟨{ im with state := im.state ||| LOADED }, ?_, ?_, fun h0 => absurd h0 hs⟩
    · simp only [hD]
      split <;> rfl
    · show im.state ||| LOADED = im.state ||| LOADED ||| SCALED
      rw [or_SCALED_of_scaled _ hs']

theorem xdrawImage_again (xw : XWindow) (name : Option (List Char)) (im : Image)
    (h1 : im.state &&& LOADED ≠ 0) (h2 : im.state &&& SCALED ≠ 0) :
    xdrawImage xw name im = .ok (im, if im.state &&& DRAWN = 0 then pngdraw im else []) := by
  unfold xdrawImage
  simp only [if_neg h1, one_ne_zero, if_false, if_neg h2]
  split <;> rfl

/-- C8, as stated, fails: the redraw of an image slide whose image is in state
`NONE` decodes and prepares it and puts it on the window, and leaves its state
at `LOADED|SCALED`, without `DRAWN`; a second redraw puts it on the window
again. -/
theorem xdraw_leaves_drawn_clear :
    ∃ g' g'', xdraw ladder (deck1 NONE) = .ok g' ∧
      (g'.img 0).map (fun im => im.state) = some (LOADED ||| SCALED) ∧
      (g'.img 0).map (fun im => im.state) ≠ some (LOADED ||| SCALED ||| DRAWN) ∧
      xdraw ladder g' = .ok g'' ∧
      g''.out = [Ev.clear, Ev.putimage 576 432, Ev.clear, Ev.putimage 576 432] :=
  ⟨_, _, rfl, rfl, by decide, rfl, rfl⟩

/-- C8, amended: the redraw (not blanked) of a slide with an image that
decodes (or is `LOADED`) and that `pngprepare` can prepare returns with the
state of the image equal to its old state with `LOADED` and `SCALED` added:
no flag is removed and `DRAWN` is left as it was, `pngdraw` sets no flag. A
further redraw changes no slide; it clears the window and, `DRAWN` being
clear, puts the image on the window again. -/
theorem xdraw_image_state (F : Fonts) (g : State) (s : Slide) (im : Image) (w h : Nat)
    (hidx : 0 ≤ g.idx) (hs : g.slides[g.idx.toNat]? = some s) (him : s.img = some im)
    (hblank : g.blanked = false)
    (hdec : im.state &&& LOADED ≠ 0 ∨ im.decodes = true)
    (hdepth : 24 ≤ g.xw.depth) (hx : g.xw.ximage = true)
    (hsize : pngprepareSize g.xw.uw g.xw.uh im.bufwidth im.bufheight = some (w, h))
    (hw : w ≠ 0) :
    ∃ g' im', xdraw F g = .ok g' ∧ g'.img g.idx.toNat = some im' ∧
      im'.state = im.state ||| LOADED ||| SCALED ∧
      im'.state &&& DRAWN = im.state &&& DRAWN ∧
      (im.state &&& SCALED = 0 → im'.ximg = some (w, h)) ∧
      ∃ g'', xdraw F g' = .ok g'' ∧ g''.slides = g'.slides ∧
        g''.out = g'.out ++ [Ev.clear] ++
          (if im.state &&& DRAWN = 0 then pngdraw im' else []) := by
  obtain ⟨im', hdraw, hstate, hximg⟩ :=
    xdrawImage_ok g.xw s.lines.head? im w h hdec hdepth hx hsize hw
  have hneg : ¬ g.idx < 0 := by omega
  have hD : im'.state &&& DRAWN = im.state &&& DRAWN := by
    rw [hstate, or_and_of_and_eq_zero _ _ _ (by decide),
      or_and_of_and_eq_zero _ _ _ (by decide)]
  have hL : im'.state &&& LOADED ≠ 0 := by
    rw [hstate, or_and_of_and_eq_zero _ _ _ (by decide)]
    exact or_two_pow_and_ne_zero _ 0
  have hS : im'.state &&& SCALED ≠ 0 := by
    rw [hstate]
    exact or_two_pow_and_ne_zero _ 1
  have hg' : xdraw F g = .ok { g with
      slides := updImg (fun _ => im') g.slides g.idx.toNat,
      out := g.out ++ [Ev.clear] ++
        (if im.state &&& DRAWN = 0 then pngdraw im' else []) } := by
    unfold xdraw
    simp only [if_neg hneg, hs, hblank, him, hdraw]
    rfl
  have hs' : (updImg (fun _ => im') g.slides g.idx.toNat)[g.idx.toNat]? =
      some { s with img := some im' } := by
    rw [updImg_getElem?, if_pos rfl, hs]
    simp [him]
  refine ⟨_, im', hg', ?_, hstate, hD, hximg, ?_⟩
  · simp [State.img, hs']
  · have hagain := xdrawImage_again g.xw s.lines.head? im' hL hS
    rw [hD] at hagain
    refine ⟨{ g with
      slides := updImg (fun _ => im') g.slides g.idx.toNat,
      out := (g.out ++ [Ev.clear] ++
        (if im.state &&& DRAWN = 0 then pngdraw im' else [])) ++ [Ev.clear] ++
        (if im.state &&& DRAWN = 0 then pngdraw im' else []) }, ?_, rfl, rfl⟩
    unfold xdraw
    simp only [if_neg hneg, hs', hblank, hagain]
    rw [updImg_same _ _ _ _ hs' rfl]
    rfl

/-- Witness of the amended C8: the one-slide deck `deck1` with its image in
state `NONE`. -/
theorem xdraw_image_state_witness :
    ∃ g' im', xdraw ladder (deck1 NONE) = .ok g' ∧ g'.img (deck1 NONE).idx.toNat = some im' ∧
      im'.state = NONE ||| LOADED ||| SCALED ∧
      im'.state &&& DRAWN = NONE &&& DRAWN ∧
      (NONE &&& SCALED = 0 → im'.ximg = some (576, 432)) ∧
      ∃ g'', xdraw ladder g' = .ok g'' ∧ g''.slides = g'.slides ∧
        g''.out = g'.out ++ [Ev.clear] ++
          (if NONE &&& DRAWN = 0 then pngdraw im' else []) :=
  xdraw_image_state ladder (deck1 NONE)
    { linecount := 1, lines := ["foo.img".toList], img := some (image640 NONE) }
    (image640 NONE) 576 432 (by decide) (by decide) rfl rfl (by decide) (by decide) rfl
    (by decide) (by decide)

/-! ## Resize -/

theorem configureInvalidate_state (width height uw uh : Nat) (g : State) (im : Image)
    (him : g.img g.idx.toNat = some im) :
    ∃ im', (configureInvalidate width height uw uh g).img g.idx.toNat = some im' ∧
      im'.state = im.state &&& bitnot SCALED ∧
      im'.state &&& SCALED = 0 ∧
      im'.state &&& LOADED = im.state &&& LOADED ∧
      im'.state &&& DRAWN = im.state &&& DRAWN := by
  refine ⟨{ im with state := im.state &&& bitnot SCALED }, ?_, rfl,
    and_and_of_and_eq_zero _ _ _ (by decide), and_and_of_and_eq _ _ _ (by decide),
    and_and_of_and_eq _ _ _ (by decide)⟩
  rw [img_updImg _ _ g.slides g.idx.toNat g.idx.toNat rfl, if_pos rfl]
  have him' : (g.slides[g.idx.toNat]?).bind (fun s => s.img) = some im := him
  rw [him']
  rfl

theorem reachable_states (s : Nat) (h : Reachable s) :
    s = NONE ∨ s = LOADED ∨ s = LOADED ||| SCALED := by
  induction h with
  | opened => exact Or.inl rfl
  | read s _ ih =>
    rcases ih with rfl | rfl | rfl
    · exact Or.inr (Or.inl (by decide))
    · exact Or.inr (Or.inl (by decide))
    · exact Or.inr (Or.inr (by decide))
  | prepared s _ hl ih =>
    rcases ih with rfl | rfl | rfl
    · exact absurd (by decide) hl
    · exact Or.inr (Or.inr (by decide))
    · exact Or.inr (Or.inr (by decide))
  | left s _ ih =>
    rcases ih with rfl | rfl | rfl
    · exact Or.inl (by decide)
    · exact Or.inr (Or.inl (by decide))
    · exact Or.inr (Or.inl (by decide))
  | resized s _ ih =>
    rcases ih with rfl | rfl | rfl
    · exact Or.inl (by decide)
    · exact Or.inr (Or.inl (by decide))
    · exact Or.inr (Or.inl (by decide))

theorem reachable_drawn_clear (s : Nat) (h : Reachable s) : s &&& DRAWN = 0 := by
  rcases reachable_states s h with rfl | rfl | rfl <;> decide

theorem pngprepare_state (xw : XWindow) (im : Image) (p : Nat × Image)
    (h : pngprepare xw im = .ok p) : p.2.state = im.state ||| SCALED := by
  unfold pngprepare at h
  split at h
  · cases h
  · split at h
    · cases h
    · split at h
      · cases h
      · split at h
        · cases h
        · injection h with h
          subst h
          rfl

theorem xdrawImage_reachable (xw : XWindow) (name : Option (List Char)) (im : Image)
    (r : Image × List Ev) (h : xdrawImage xw name im = .ok r) (hr : Reachable im.state) :
    Reachable r.1.state := by
  have key : ∀ im1 : Image, Reachable im1.state → im1.state &&& LOADED ≠ 0 →
      (if im1.state &&& SCALED = 0 then
          match pngprepare xw im1 with
          | .error e => .error e
          | .ok p =>
            if p.1 = 0 then
              .ok (p.2, [Ev.eprintf "Unable to prepare image %s for drawing." name])
            else if p.2.state &&& DRAWN = 0 then .ok (p.2, pngdraw p.2)
            else .ok (p.2, [])
        else if im1.state &&& DRAWN = 0 then .ok (im1, pngdraw im1)
        else .ok (im1, [])) = (.ok r : Except String (Image × List Ev)) →
      Reachable r.1.state := by
    intro im1 h1 hl hk
    split at hk
    · cases hp : pngprepare xw im1 with
      | error e => rw [hp] at hk; cases hk
      | ok p =>
        rw [hp] at hk
        have hs := pngprepare_state xw im1 p hp
        have hreach : Reachable p.2.state := by
          rw [hs]; exact Reachable.prepared _ h1 hl
        dsimp only at hk
        split at hk
        · injection hk with hk; subst hk; exact hreach
        · split at hk
          · injection hk with hk; subst hk; exact hreach
          · injection hk with hk; subst hk; exact hreach
    · split at hk
      · injection hk with hk; subst hk; exact h1
      · injection hk with hk; subst hk; exact h1
  unfold xdrawImage at h
  by_cases hL : im.state &&& LOADED = 0
  · by_cases hd : im.decodes = true
    · have hp : pngread im = (1, { im with state := im.state ||| LOADED }) := by
        simp [pngread, hL, hd]
      simp only [hL, if_true, hp, one_ne_zero, if_false] at h
      exact key { im with state := im.state ||| LOADED } (Reachable.read _ hr)
        (or_two_pow_and_ne_zero _ 0) h
    · have hp : pngread im = (0, im) := by
        simp [pngread, hL, hd]
      simp only [hL, if_true, hp] at h
      injection h with h
      subst h
      exact hr
  · simp only [hL, if_false, one_ne_zero] at h
    exact key im hr hL h

theorem reachable_updImg (g g' : State) (f : Image → Image) (i : Nat)
    (h : g'.slides = updImg f g.slides i)
    (hg : ∀ j im, g.img j = some im → Reachable im.state)
    (hf : ∀ im, g.img i = some im → Reachable (f im).state) :
    ∀ j im, g'.img j = some im → Reachable im.state := by
  intro j im' hj
  rw [img_updImg f g' g.slides i j h] at hj
  by_cases hji : j = i
  · subst hji
    rw [if_pos rfl] at hj
    cases hgi : g.img j with
    | none =>
      unfold State.img at hgi
      rw [hgi] at hj
      cases hj
    | some im =>
      have hgi' := hgi
      unfold State.img at hgi'
      rw [hgi'] at hj
      injection hj with hj
      subst hj
      exact hf im hgi
  · rw [if_neg hji] at hj
    exact hg j im' hj

theorem xdraw_reachable (F : Fonts) (g g' : State) (h : xdraw F g = .ok g')
    (hg : ∀ j im, g.img j = some im → Reachable im.state) :
    ∀ j im, g'.img j = some im → Reachable im.state := by
  unfold xdraw at h
  split at h
  · cases h
  · split at h
    · cases h
    · rename_i s hs
      dsimp only at h
      split at h
      · injection h with h
        subst h
        exact hg
      · split at h
        · injection h with h
          subst h
          exact hg
        · rename_i im0 him0
          split at h
          · cases h
          · rename_i r hr
            injection h with h
            subst h
            refine reachable_updImg g _ (fun _ => r.1) g.idx.toNat rfl hg (fun _ _ => ?_)
            have h0 : g.img g.idx.toNat = some im0 := by simp [State.img, hs, him0]
            exact xdrawImage_reachable g.xw s.lines.head? im0 r hr (hg _ _ h0)

theorem prefetch_reachable (i : Nat) (g g' : State) (h : prefetch i g = .ok g')
    (hg : ∀ j im, g.img j = some im → Reachable im.state) :
    ∀ j im, g'.img j = some im → Reachable im.state := by
  unfold prefetch at h
  split at h
  · cases h
  · rename_i s hs
    split at h
    · injection h with h
      subst h
      exact hg
    · rename_i im0 him0
      split at h
      · cases h
      · injection h with h
        subst h
        refine reachable_updImg g _ (fun _ => (pngread im0).2) i rfl hg (fun _ _ => ?_)
        have h0 : g.img i = some im0 := by simp [State.img, hs, him0]
        rcases pngread_state im0 with e | e
        · rw [e]; exact hg _ _ h0
        · rw [e]; exact Reachable.read _ (hg _ _ h0)

theorem advance_reachable (F : Fonts) (arg : Int) (g g' : State)
    (h : advance F arg g = .ok g')
    (hg : ∀ j im, g.img j = some im → Reachable im.state) :
    ∀ j im, g'.img j = some im → Reachable im.state := by
  unfold advance at h
  split at h
  · cases h
  · dsimp only at h
    split at h
    · cases hx : xdraw F { g with
          slides := updImg (fun im => { im with state := im.state &&& bitnot (DRAWN ||| SCALED) })
            g.slides g.idx.toNat,
          idx := LIMIT (g.idx + arg) 0 (g.slidecount - 1) } with
      | error e => rw [hx] at h; cases h
      | ok g2 =>
        rw [hx] at h
        dsimp only at h
        have h1 : ∀ j im, (State.img { g with
            slides := updImg
              (fun im => { im with state := im.state &&& bitnot (DRAWN ||| SCALED) })
              g.slides g.idx.toNat,
            idx := LIMIT (g.idx + arg) 0 (g.slidecount - 1) } j) = some im →
            Reachable im.state :=
          reachable_updImg g _ _ g.idx.toNat rfl hg
            (fun im him => Reachable.left _ (hg _ _ him))
        have h2 := xdraw_reachable F _ g2 hx h1
        cases hp : (if g2.slidecount > g2.idx + 1 then prefetch (g2.idx + 1).toNat g2
            else .ok g2) with
        | error e => rw [hp] at h; cases h
        | ok g3 =>
          rw [hp] at h
          dsimp only at h
          have h3 : ∀ j im, g3.img j = some im → Reachable im.state := by
            by_cases hc : g2.slidecount > g2.idx + 1
            · rw [if_pos hc] at hp
              exact prefetch_reachable _ g2 g3 hp h2
            · rw [if_neg hc] at hp
              injection hp with hp
              subst hp
              exact h2
          by_cases hc : 0 < g3.idx
          · rw [if_pos hc] at h
            exact prefetch_reachable _ g3 g' h h3
          · rw [if_neg hc] at h
            injection h with h
            subst h
            exact h3
    · injection h with h
      subst h
      exact hg

theorem configure_reachable (F : Fonts) (width height uw uh : Nat) (g g' : State)
    (h : configure F width height uw uh g = .ok g')
    (hg : ∀ j im, g.img j = some im → Reachable im.state) :
    ∀ j im, g'.img j = some im → Reachable im.state :=
  xdraw_reachable F _ g' h
    (reachable_updImg g _ _ g.idx.toNat rfl hg (fun _ him => Reachable.resized _ (hg _ _ him)))

theorem blank_reachable (F : Fonts) (g g' : State) (h : blank F g = .ok g')
    (hg : ∀ j im, g.img j = some im → Reachable im.state) :
    ∀ j im, g'.img j = some im → Reachable im.state :=
  xdraw_reachable F _ g' h hg

/-- C9: for every state that the image of the current slide can be in, the
invalidation that `configure` performs before its redraw leaves `SCALED` and
`DRAWN` clear and `LOADED` exactly as it was. -/
theorem configure_invalidates (width height uw uh : Nat) (g : State) (im : Image)
    (him : g.img g.idx.toNat = some im) (hreach : Reachable im.state) :
    ∃ im', (configureInvalidate width height uw uh g).img g.idx.toNat = some im' ∧
      im'.state &&& SCALED = 0 ∧ im'.state &&& DRAWN = 0 ∧
      im'.state &&& LOADED = im.state &&& LOADED := by
  obtain ⟨im', h1, _, h3, h4, h5⟩ := configureInvalidate_state width height uw uh g im him
  exact ⟨im', h1, h3, by rw [h5]; exact reachable_drawn_clear _ hreach, h4⟩

/-- Witness of C9: the one-slide deck `deck1` with its image decoded and
prepared, resized to 800 by 600. -/
theorem configure_invalidates_witness :
    ∃ im', (configureInvalidate 800 600 600 450 (deck1 (NONE ||| LOADED ||| SCALED))).img
        (deck1 (NONE ||| LOADED ||| SCALED)).idx.toNat = some im' ∧
      im'.state &&& SCALED = 0 ∧ im'.state &&& DRAWN = 0 ∧
      im'.state &&& LOADED = (image640 (NONE ||| LOADED ||| SCALED)).state &&& LOADED :=
  configure_invalidates 800 600 600 450 (deck1 (NONE ||| LOADED ||| SCALED))
    (image640 (NONE ||| LOADED ||| SCALED)) rfl
    (Reachable.prepared _ (Reachable.read _ Reachable.opened) (by decide))

/-- The statement `state &= ~SCALED` of `configure` applied to the value
`LOADED|SCALED|DRAWN`, which no image can have, would leave `DRAWN` set. -/
theorem configure_keeps_drawn :
    (configureInvalidate 800 600 600 450 (deck1 (LOADED ||| SCALED ||| DRAWN))).img 0 =
        some (image640 (LOADED ||| DRAWN)) ∧
      (LOADED ||| DRAWN) &&& DRAWN ≠ 0 := by
  refine ⟨rfl, by decide⟩

/-! ## The reads of `pngscale` -/

end Nuff
